import Mathlib

/-!
# The two-way diff assembler of libsvn_diff (`subversion/libsvn_diff/diff.c`)

A shallow embedding of `svn_diff__diff`, the routine that walks a chain of
LCS runs and materialises the linked list of `common` / `modified` chunks, and
of the public entry point `svn_diff_diff`, followed by their properties.

Conventions of the embedding.

* `apr_off_t` is a signed 64-bit integer.  Signed overflow is undefined in C,
  so the model computes over `Int`: it describes every execution in which no
  subtraction or addition of offsets overflows.  For the ordered chains of the
  coverage, tiling and accounting theorems every intermediate value lies
  between `0` and the terminator offsets, so nothing can overflow there.
* A chain of `svn_diff__lcs_t` records linked through `next` is a `List`; the
  `next` pointer of the last record is `NULL`.  The loop of `svn_diff__diff`
  leaves only at a run of length `0`; following `next` past the last record
  dereferences `NULL`, which the model renders as `none`.
* The result chain, linked through `next` and closed by `NULL`, is a `List`;
  the empty list is the `NULL` chain.  The pool argument of `svn_diff__diff`
  only provides storage and is not modelled.
* `svn_diff_diff` is a function of the adapter table, of the routines of
  libsvn_diff it calls (token tree, ingestion, LCS engine, taken as parameters)
  and of the adapter state.  It returns the error, the chain stored in `*diff`,
  the pools it created and has not destroyed, and the trace of its calls.
-/

namespace SvnDiff

/-- Modelled from the spec: the tag `svn_diff__type_e` of a chunk is declared
in `diff.h`, which is not among the sources; the two-way engine uses the two
tags `common` and `modified` (`svn_diff__type_common`,
`svn_diff__type_diff_modified` in `diff.c`). -/
inductive svn_diff__type_e where
  | svn_diff__type_common
  | svn_diff__type_diff_modified
  deriving DecidableEq, Repr

/-- Modelled from the spec: the record `svn_diff_t` is declared in `diff.h`,
which is not among the sources; its fields are the ones `diff.c` assigns
(`type`, the three start/length pairs) and `next`, which is the tail of the
list. -/
structure svn_diff_t where
  type : svn_diff__type_e
  original_start : Int
  original_length : Int
  modified_start : Int
  modified_length : Int
  latest_start : Int
  latest_length : Int
  deriving DecidableEq, Repr

/-- Modelled from the spec: the record `svn_diff__lcs_t` is declared in
`diff.h`, which is not among the sources.  `position0_offset` and
`position1_offset` stand for `position[0]->offset` and `position[1]->offset`,
`length` for `length`; `next` is the tail of the list. -/
structure svn_diff__lcs_t where
  position0_offset : Int
  position1_offset : Int
  length : Int
  deriving DecidableEq, Repr

/-- The chunk stored at `diff.c` lines 51-61: the unmatched gap between the
cursors and the offsets of the run `lcs`. -/
def modified_chunk (lcs : svn_diff__lcs_t) (original_start modified_start : Int) :
    svn_diff_t :=
  { type := svn_diff__type_e.svn_diff__type_diff_modified
    original_start := original_start - 1
    original_length := lcs.position0_offset - original_start
    modified_start := modified_start - 1
    modified_length := lcs.position1_offset - modified_start
    latest_start := 0
    latest_length := 0 }

/-- The chunk stored at `diff.c` lines 75-83, after the cursors have been set
to the offsets of the run (lines 70-71). -/
def common_chunk (lcs : svn_diff__lcs_t) (original_start modified_start : Int) :
    svn_diff_t :=
  { type := svn_diff__type_e.svn_diff__type_common
    original_start := original_start - 1
    original_length := lcs.length
    modified_start := modified_start - 1
    modified_length := lcs.length
    latest_start := 0
    latest_length := 0 }

/-- The loop of `svn_diff__diff` (`diff.c` lines 37-97).  One equation per
iteration: the optional `modified` chunk (lines 48-64), the exit at a run of
length `0` (lines 67-68), the cursors moved onto the run (lines 70-71), the
optional `common` chunk (lines 73-86), the cursors moved past the run
(lines 88-89) and the step to `lcs->next` (line 91). -/
def svn_diff__diff : List svn_diff__lcs_t → Int → Int → Bool → Option (List svn_diff_t)
  | [], _, _, _ => none
  | lcs :: next, original_start, modified_start, want_common =>
    let gap : List svn_diff_t :=
      if original_start < lcs.position0_offset ∨ modified_start < lcs.position1_offset then
        [modified_chunk lcs original_start modified_start]
      else []
    if lcs.length = 0 then
      some gap
    else
      let original_start := lcs.position0_offset
      let modified_start := lcs.position1_offset
      let common : List svn_diff_t :=
        if want_common = true then [common_chunk lcs original_start modified_start] else []
      match svn_diff__diff next (original_start + lcs.length) (modified_start + lcs.length)
          want_common with
      | none => none
      | some rest => some (gap ++ (common ++ rest))

/-! ## Predicates on chains and on outputs -/

/-- An ordered LCS chain for `(N, M)`: the last record is the terminator
`(N+1, M+1, 0)`, every record before it is a run of positive length with
offsets at least `1`, and each record starts, on both sides, no earlier than
the end (offset plus length) of the record before it (`lcs.zip lcs.tail` lists
the pairs of neighbours). -/
def OrderedChain (N M : Int) (lcs : List svn_diff__lcs_t) : Prop :=
  0 ≤ N ∧ 0 ≤ M ∧
  lcs.getLast? = some ⟨N + 1, M + 1, 0⟩ ∧
  (∀ r ∈ lcs.dropLast, 0 < r.length ∧ 1 ≤ r.position0_offset ∧ 1 ≤ r.position1_offset) ∧
  (∀ p ∈ lcs.zip lcs.tail,
    p.1.position0_offset + p.1.length ≤ p.2.position0_offset ∧
    p.1.position1_offset + p.1.length ≤ p.2.position1_offset)

instance (N M : Int) (lcs : List svn_diff__lcs_t) : Decidable (OrderedChain N M lcs) := by
  delta OrderedChain; infer_instance

/-- The chain ends in a record of length `0`. -/
def EndsInTerminator (lcs : List svn_diff__lcs_t) : Prop :=
  lcs.getLast?.map svn_diff__lcs_t.length = some 0

instance (lcs : List svn_diff__lcs_t) : Decidable (EndsInTerminator lcs) := by
  delta EndsInTerminator; infer_instance

/-- The loop invariant behind `OrderedChain`, relative to the cursors `(o, m)`:
the cursors are not past the offsets of the next record, runs have positive
length, and the record of length `0` sits at `(N+1, M+1)` and is the last. -/
def OrderedFrom (N M : Int) : Int → Int → List svn_diff__lcs_t → Prop
  | _, _, [] => False
  | o, m, r :: rest =>
    o ≤ r.position0_offset ∧ m ≤ r.position1_offset ∧
    if r.length = 0 then
      r.position0_offset = N + 1 ∧ r.position1_offset = M + 1 ∧ rest = []
    else
      0 < r.length ∧
      OrderedFrom N M (r.position0_offset + r.length) (r.position1_offset + r.length) rest

/-- The chunks `out` tile both sides: they start at `(s, t)`, each chunk starts
where the one before it ends, and the last one ends at `(e, f)`. -/
def Tiled : Int → Int → List svn_diff_t → Int → Int → Prop
  | s, t, [], e, f => s = e ∧ t = f
  | s, t, c :: rest, e, f =>
    c.original_start = s ∧ c.modified_start = t ∧
    Tiled (s + c.original_length) (t + c.modified_length) rest e f

/-- Sum of `original_length` over a chunk list. -/
def sum_original_length (out : List svn_diff_t) : Int :=
  (out.map svn_diff_t.original_length).sum

/-- Sum of `modified_length` over a chunk list. -/
def sum_modified_length (out : List svn_diff_t) : Int :=
  (out.map svn_diff_t.modified_length).sum

/-- Total `original_length + modified_length` over the chunks of type
`modified`. -/
def modified_total (out : List svn_diff_t) : Int :=
  ((out.filter (fun c => decide (c.type = svn_diff__type_e.svn_diff__type_diff_modified))).map
    (fun c => c.original_length + c.modified_length)).sum

/-- Sum of the lengths of the runs of a chain. -/
def lcs_length (lcs : List svn_diff__lcs_t) : Int :=
  (lcs.map svn_diff__lcs_t.length).sum

/-- The chunks the first half of an iteration appends (`diff.c` lines 48-64):
the `modified` chunk when a cursor is below the offset of the run on its side,
nothing otherwise. -/
def gap_chunks (r : svn_diff__lcs_t) (o m : Int) : List svn_diff_t :=
  if o < r.position0_offset ∨ m < r.position1_offset then [modified_chunk r o m] else []

/-- The chunks the second half of an iteration appends (`diff.c` lines 73-86):
the `common` chunk of the run when `want_common` is set, nothing otherwise. -/
def common_chunks (r : svn_diff__lcs_t) (want_common : Bool) : List svn_diff_t :=
  if want_common = true then [common_chunk r r.position0_offset r.position1_offset] else []

/-- The cursors after the loop has consumed the runs `pre`, having started at
`(o, m)` (`diff.c` lines 70-71 and 88-89): the end of the last run consumed. -/
def cursors_after (pre : List svn_diff__lcs_t) (o m : Int) : Int × Int :=
  pre.foldl (fun _ r => (r.position0_offset + r.length, r.position1_offset + r.length)) (o, m)

/-- The output begins with a chunk of type `modified`. -/
def BeginsWithModified (out : List svn_diff_t) : Prop :=
  (out.head?.map svn_diff_t.type) = some svn_diff__type_e.svn_diff__type_diff_modified

instance (out : List svn_diff_t) : Decidable (BeginsWithModified out) := by
  delta BeginsWithModified; infer_instance

/-- The records the loop of `svn_diff__diff` reads (`diff.c` lines 46-92): it
reads the current record, leaves at a record of length `0` (lines 67-68) and
otherwise moves to `lcs->next` (line 91). -/
def runs_visited : List svn_diff__lcs_t → List svn_diff__lcs_t
  | [] => []
  | r :: rest => if r.length = 0 then [r] else r :: runs_visited rest

/-! ## The public entry point `svn_diff_diff` -/

/-- Modelled from the spec: the enumeration `svn_diff_datasource_e` is declared
in `svn_diff.h`, which is not among the sources; `diff.c` names the original
and the modified datasource (line 108). -/
inductive svn_diff_datasource_e where
  | svn_diff_datasource_original
  | svn_diff_datasource_modified
  deriving DecidableEq, Repr

/-- The pools `svn_diff_diff` handles: the `pool` of the caller and the two
locals `subpool` (work arena) and `treepool` (tree arena). -/
inductive pool_id where
  | pool
  | subpool
  | treepool
  deriving DecidableEq, Repr

/-- The calls `svn_diff_diff` makes, with the arguments the properties are
about; a trace lists them in program order. -/
inductive event where
  | pool_create (child parent : pool_id)
  | tree_create (p : pool_id)
  | datasources_open (datasource : List svn_diff_datasource_e)
  | get_tokens (datasource : svn_diff_datasource_e) (prefix_lines : Int) (p : pool_id)
  | token_discard_all
  | pool_destroy (p : pool_id)
  | lcs (prefix_lines : Int) (p : pool_id)
  | diff (original_start modified_start : Int) (want_common : Bool) (p : pool_id)
  deriving DecidableEq, Repr

/-- Modelled from the spec: the adapter table `svn_diff_fns_t` is declared in
`svn_diff.h`, which is not among the sources; these are the two slots
`svn_diff_diff` uses.  `σ` is the state behind `diff_baton`, `ε` the type of
errors.  `datasources_open` returns the new state, the value it stored through
the `prefix_lines` pointer (`none` when it stored nothing) and the error it
returns (`none` for `SVN_NO_ERROR`); `token_discard_all` is `none` for a `NULL`
slot. -/
structure svn_diff_fns_t (σ ε : Type) where
  datasources_open : σ → List svn_diff_datasource_e → σ × Option Int × Option ε
  token_discard_all : Option (σ → σ)

/-- Modelled from the spec: the token tree, the ingestion `svn_diff__get_tokens`
and the LCS engine `svn_diff__lcs` are defined in other files of libsvn_diff,
which are not among the sources; they are taken as parameters.  `τ` is the
tree, `P` a position list.  `svn_diff__get_tokens tree baton datasource
datasource_opened prefix_lines` returns the new tree, the new adapter state and
either an error or the position list. -/
structure libsvn_diff (σ ε τ P : Type) where
  svn_diff__tree_create : τ
  svn_diff__get_tokens : τ → σ → svn_diff_datasource_e → Bool → Int → τ × σ × Except ε P
  svn_diff__lcs : P → P → Int → List svn_diff__lcs_t

/-- What a call of `svn_diff_diff` leaves behind: the error returned (`none`
for `SVN_NO_ERROR`), the chain stored in `*diff` (`[]` for `NULL`), the adapter
state, the pools the call created and has not destroyed, and the trace of its
calls. -/
structure svn_diff_diff_result (σ ε : Type) where
  err : Option ε
  diff : List svn_diff_t
  diff_baton : σ
  live_pools : List pool_id
  trace : List event

/-- The function `svn_diff_diff` (`diff.c` lines 100-160).  Each `SVN_ERR`
returns the error of its call at once; `svn_pool_create` adds a pool to the
live pools and `svn_pool_destroy` removes it.  The result is `none` only when
`svn_diff__diff` walks past the end of the chain. -/
def svn_diff_diff {σ ε τ P : Type} (vtable : svn_diff_fns_t σ ε) (lib : libsvn_diff σ ε τ P)
    (diff_baton : σ) : Option (svn_diff_diff_result σ ε) :=
  let datasource := [svn_diff_datasource_e.svn_diff_datasource_original,
    svn_diff_datasource_e.svn_diff_datasource_modified]
  let diff : List svn_diff_t := []
  let live_pools := [pool_id.subpool, pool_id.treepool]
  let tree := lib.svn_diff__tree_create
  let trace := [event.pool_create pool_id.subpool pool_id.pool,
    event.pool_create pool_id.treepool pool_id.pool, event.tree_create pool_id.treepool,
    event.datasources_open datasource]
  match vtable.datasources_open diff_baton datasource with
  | (diff_baton, _, some err) => some ⟨some err, diff, diff_baton, live_pools, trace⟩
  | (diff_baton, stored, none) =>
    let prefix_lines : Int := stored.getD 0
    let trace := trace ++ [event.get_tokens svn_diff_datasource_e.svn_diff_datasource_original
      prefix_lines pool_id.subpool]
    match lib.svn_diff__get_tokens tree diff_baton
        svn_diff_datasource_e.svn_diff_datasource_original true prefix_lines with
    | (_, diff_baton, Except.error err) => some ⟨some err, diff, diff_baton, live_pools, trace⟩
    | (tree, diff_baton, Except.ok position_list_0) =>
      let trace := trace ++ [event.get_tokens svn_diff_datasource_e.svn_diff_datasource_modified
        prefix_lines pool_id.subpool]
      match lib.svn_diff__get_tokens tree diff_baton
          svn_diff_datasource_e.svn_diff_datasource_modified true prefix_lines with
      | (_, diff_baton, Except.error err) => some ⟨some err, diff, diff_baton, live_pools, trace⟩
      | (_, diff_baton, Except.ok position_list_1) =>
        let discarded : σ × List event :=
          match vtable.token_discard_all with
          | some token_discard_all => (token_discard_all diff_baton, [event.token_discard_all])
          | none => (diff_baton, [])
        let live_pools := live_pools.erase pool_id.treepool
        let lcs := lib.svn_diff__lcs position_list_0 position_list_1 prefix_lines
        match svn_diff__diff lcs 1 1 true with
        | none => none
        | some diff =>
          let live_pools := live_pools.erase pool_id.subpool
          some ⟨none, diff, discarded.1, live_pools,
            trace ++ discarded.2 ++ [event.pool_destroy pool_id.treepool,
              event.lcs prefix_lines pool_id.subpool, event.diff 1 1 true pool_id.pool,
              event.pool_destroy pool_id.subpool]⟩

/-- An adapter for the examples: `datasources_open` succeeds and stores the
prefix count `2`; the `token_discard_all` slot is filled. -/
def adapter_ok : svn_diff_fns_t Unit Nat :=
  ⟨fun s _ => (s, some 2, none), some (fun s => s)⟩

/-- An adapter for the examples: `datasources_open` returns the error `7` and
stores nothing; the `token_discard_all` slot is `NULL`. -/
def adapter_failing : svn_diff_fns_t Unit Nat :=
  ⟨fun s _ => (s, none, some 7), none⟩

/-- Internals for the examples: ingestion always succeeds and the LCS engine
returns the chain of original `A B C` against modified `A B C D`. -/
def lib_fixed : libsvn_diff Unit Nat Unit Unit :=
  ⟨(), fun t s _ _ _ => (t, s, Except.ok ()), fun _ _ _ => [⟨1, 1, 3⟩, ⟨4, 5, 0⟩]⟩

/-! ## Auxiliary lemmas -/

theorem orderedFrom_of_parts (N M : Int) :
    ∀ (lcs : List svn_diff__lcs_t) (o m : Int),
      lcs.getLast? = some ⟨N + 1, M + 1, 0⟩ →
      (∀ r ∈ lcs.dropLast, 0 < r.length) →
      (∀ p ∈ lcs.zip lcs.tail,
        p.1.position0_offset + p.1.length ≤ p.2.position0_offset ∧
        p.1.position1_offset + p.1.length ≤ p.2.position1_offset) →
      (∀ r, lcs.head? = some r → o ≤ r.position0_offset ∧ m ≤ r.position1_offset) →
      OrderedFrom N M o m lcs := by
  intro lcs
  induction lcs with
  | nil => intro o m h; simp at h
  | cons r rest ih =>
    intro o m hlast hpos hchain hhead
    have hh := hhead r rfl
    cases rest with
    | nil =>
      simp at hlast
      subst hlast
      simp [OrderedFrom, hh.1, hh.2]
    | cons s rest2 =>
      have hr : 0 < r.length := hpos r (by simp [List.dropLast])
      have hne : r.length ≠ 0 := by omega
      simp only [OrderedFrom, hne, if_false]
      refine ⟨hh.1, hh.2, hr, ?_⟩
      apply ih
      · simpa [List.getLast?_cons_cons] using hlast
      · intro q hq
        exact hpos q (by simp [List.dropLast]; exact Or.inr hq)
      · intro p hp
        exact hchain p (by simp only [List.tail_cons, List.zip_cons_cons]
                           exact List.mem_cons_of_mem _ hp)
      · intro q hq
        simp only [List.head?_cons, Option.some.injEq] at hq
        subst hq
        exact hchain (r, s) (by simp)

theorem orderedFrom_of_orderedChain {N M : Int} {lcs : List svn_diff__lcs_t}
    (h : OrderedChain N M lcs) : OrderedFrom N M 1 1 lcs := by
  obtain ⟨hN, hM, hlast, hpos, hchain⟩ := h
  apply orderedFrom_of_parts N M lcs 1 1 hlast (fun r hr => (hpos r hr).1) hchain
  intro r hr
  cases lcs with
  | nil => simp at hr
  | cons a rest =>
    simp at hr
    subst hr
    cases rest with
    | nil =>
      simp at hlast
      subst hlast
      simp
      omega
    | cons s rest2 =>
      have := hpos a (by simp [List.dropLast])
      omega

theorem diff_cons_zero (r : svn_diff__lcs_t) (rest : List svn_diff__lcs_t) (o m : Int)
    (wc : Bool) (h : r.length = 0) :
    svn_diff__diff (r :: rest) o m wc = some (gap_chunks r o m) := by
  simp [svn_diff__diff, gap_chunks, h]

theorem diff_cons_ne (r : svn_diff__lcs_t) (rest : List svn_diff__lcs_t) (o m : Int)
    (wc : Bool) (h : r.length ≠ 0) :
    svn_diff__diff (r :: rest) o m wc =
      (svn_diff__diff rest (r.position0_offset + r.length) (r.position1_offset + r.length) wc).map
        (fun out => gap_chunks r o m ++ (common_chunks r wc ++ out)) := by
  simp only [svn_diff__diff, gap_chunks, common_chunks, h, if_false]
  cases svn_diff__diff rest (r.position0_offset + r.length) (r.position1_offset + r.length) wc <;>
    rfl

theorem diff_isSome_of_orderedFrom (N M : Int) (wc : Bool) :
    ∀ (lcs : List svn_diff__lcs_t) (o m : Int), OrderedFrom N M o m lcs →
      ∃ out, svn_diff__diff lcs o m wc = some out := by
  intro lcs
  induction lcs with
  | nil => intro o m h; exact absurd h (by simp [OrderedFrom])
  | cons r rest ih =>
    intro o m h
    by_cases hz : r.length = 0
    · exact ⟨_, diff_cons_zero r rest o m wc hz⟩
    · simp only [OrderedFrom, hz, if_false] at h
      obtain ⟨out, hout⟩ := ih _ _ h.2.2.2
      exact ⟨_, by rw [diff_cons_ne r rest o m wc hz, hout]; rfl⟩

theorem sum_original_length_append (a b : List svn_diff_t) :
    sum_original_length (a ++ b) = sum_original_length a + sum_original_length b := by
  simp [sum_original_length]

theorem sum_modified_length_append (a b : List svn_diff_t) :
    sum_modified_length (a ++ b) = sum_modified_length a + sum_modified_length b := by
  simp [sum_modified_length]

theorem modified_total_append (a b : List svn_diff_t) :
    modified_total (a ++ b) = modified_total a + modified_total b := by
  simp [modified_total]

theorem sums_gap_chunks (r : svn_diff__lcs_t) (o m : Int)
    (ho : o ≤ r.position0_offset) (hm : m ≤ r.position1_offset) :
    sum_original_length (gap_chunks r o m) = r.position0_offset - o ∧
    sum_modified_length (gap_chunks r o m) = r.position1_offset - m ∧
    modified_total (gap_chunks r o m) = (r.position0_offset - o) + (r.position1_offset - m) := by
  unfold gap_chunks
  split
  · simp [sum_original_length, sum_modified_length, modified_total, modified_chunk]
  · simp [sum_original_length, sum_modified_length, modified_total]
    omega

theorem sums_common_chunks (r : svn_diff__lcs_t) (wc : Bool) :
    sum_original_length (common_chunks r true) = r.length ∧
    sum_modified_length (common_chunks r true) = r.length ∧
    modified_total (common_chunks r wc) = 0 := by
  cases wc <;>
    simp [common_chunks, sum_original_length, sum_modified_length, modified_total, common_chunk]

theorem coverage_from (N M : Int) :
    ∀ (lcs : List svn_diff__lcs_t) (o m : Int), OrderedFrom N M o m lcs →
      ∀ out, svn_diff__diff lcs o m true = some out →
        sum_original_length out = N + 1 - o ∧ sum_modified_length out = M + 1 - m := by
  intro lcs
  induction lcs with
  | nil => intro o m h; exact absurd h (by simp [OrderedFrom])
  | cons r rest ih =>
    intro o m h out hout
    obtain ⟨ho, hm, h⟩ := h
    have hg := sums_gap_chunks r o m ho hm
    by_cases hz : r.length = 0
    · rw [diff_cons_zero r rest o m true hz] at hout
      simp only [hz, if_true] at h
      cases hout
      omega
    · simp only [hz, if_false] at h
      rw [diff_cons_ne r rest o m true hz] at hout
      cases hrec : svn_diff__diff rest (r.position0_offset + r.length)
          (r.position1_offset + r.length) true with
      | none => rw [hrec] at hout; cases hout
      | some out2 =>
        rw [hrec] at hout
        cases hout
        have h2 := ih _ _ h.2 out2 hrec
        have hc := sums_common_chunks r true
        simp only [sum_original_length_append, sum_modified_length_append]
        omega

theorem accounting_from (N M : Int) (wc : Bool) :
    ∀ (lcs : List svn_diff__lcs_t) (o m : Int), OrderedFrom N M o m lcs →
      ∀ out, svn_diff__diff lcs o m wc = some out →
        modified_total out = (N + 1 - o) + (M + 1 - m) - 2 * lcs_length lcs := by
  intro lcs
  induction lcs with
  | nil => intro o m h; exact absurd h (by simp [OrderedFrom])
  | cons r rest ih =>
    intro o m h out hout
    obtain ⟨ho, hm, h⟩ := h
    have hg := sums_gap_chunks r o m ho hm
    have hl : lcs_length (r :: rest) = r.length + lcs_length rest := by simp [lcs_length]
    by_cases hz : r.length = 0
    · rw [diff_cons_zero r rest o m wc hz] at hout
      simp only [hz, if_true] at h
      cases hout
      have hnil : lcs_length rest = 0 := by rw [h.2.2]; rfl
      omega
    · simp only [hz, if_false] at h
      rw [diff_cons_ne r rest o m wc hz] at hout
      cases hrec : svn_diff__diff rest (r.position0_offset + r.length)
          (r.position1_offset + r.length) wc with
      | none => rw [hrec] at hout; cases hout
      | some out2 =>
        rw [hrec] at hout
        cases hout
        have h2 := ih _ _ h.2 out2 hrec
        have hc := sums_common_chunks r wc
        simp only [modified_total_append]
        omega

theorem tiled_append :
    ∀ (a b : List svn_diff_t) (s t s2 t2 e f : Int),
      Tiled s t a s2 t2 → Tiled s2 t2 b e f → Tiled s t (a ++ b) e f := by
  intro a
  induction a with
  | nil =>
    intro b s t s2 t2 e f ha hb
    obtain ⟨h1, h2⟩ := ha
    subst h1 h2
    exact hb
  | cons c a ih =>
    intro b s t s2 t2 e f ha hb
    obtain ⟨h1, h2, h3⟩ := ha
    exact ⟨h1, h2, ih b _ _ _ _ _ _ h3 hb⟩

theorem tiled_gap_chunks (r : svn_diff__lcs_t) (o m : Int)
    (ho : o ≤ r.position0_offset) (hm : m ≤ r.position1_offset) :
    Tiled (o - 1) (m - 1) (gap_chunks r o m)
      (r.position0_offset - 1) (r.position1_offset - 1) := by
  unfold gap_chunks
  split
  · exact ⟨rfl, rfl, by simp only [modified_chunk]; omega, by simp only [modified_chunk]; omega⟩
  · simp only [Tiled]
    omega

theorem tiled_common_chunks (r : svn_diff__lcs_t) :
    Tiled (r.position0_offset - 1) (r.position1_offset - 1) (common_chunks r true)
      (r.position0_offset + r.length - 1) (r.position1_offset + r.length - 1) := by
  simp only [common_chunks, if_true]
  exact ⟨rfl, rfl, by simp only [common_chunk]; omega, by simp only [common_chunk]; omega⟩

theorem tiling_from (N M : Int) :
    ∀ (lcs : List svn_diff__lcs_t) (o m : Int), OrderedFrom N M o m lcs →
      ∀ out, svn_diff__diff lcs o m true = some out → Tiled (o - 1) (m - 1) out N M := by
  intro lcs
  induction lcs with
  | nil => intro o m h; exact absurd h (by simp [OrderedFrom])
  | cons r rest ih =>
    intro o m h out hout
    obtain ⟨ho, hm, h⟩ := h
    have hg := tiled_gap_chunks r o m ho hm
    by_cases hz : r.length = 0
    · rw [diff_cons_zero r rest o m true hz] at hout
      simp only [hz, if_true] at h
      cases hout
      rw [h.1, h.2.1] at hg
      simpa using hg
    · simp only [hz, if_false] at h
      rw [diff_cons_ne r rest o m true hz] at hout
      cases hrec : svn_diff__diff rest (r.position0_offset + r.length)
          (r.position1_offset + r.length) true with
      | none => rw [hrec] at hout; cases hout
      | some out2 =>
        rw [hrec] at hout
        cases hout
        have h2 := ih _ _ h.2 out2 hrec
        exact tiled_append _ _ _ _ _ _ _ _ hg
          (tiled_append _ _ _ _ _ _ _ _ (tiled_common_chunks r) h2)

theorem tiled_head (s t e f : Int) (out : List svn_diff_t) (h : Tiled s t out e f) :
    ∀ c, out.head? = some c → c.original_start = s ∧ c.modified_start = t := by
  intro c hc
  cases out with
  | nil => simp at hc
  | cons d rest =>
    simp at hc
    subst hc
    exact ⟨h.1, h.2.1⟩

theorem tiled_chain :
    ∀ (out : List svn_diff_t) (s t e f : Int), Tiled s t out e f →
      out.Chain' (fun c d =>
        d.original_start = c.original_start + c.original_length ∧
        d.modified_start = c.modified_start + c.modified_length) := by
  intro out
  induction out with
  | nil => intro s t e f _; exact List.chain'_nil
  | cons c rest ih =>
    intro s t e f h
    obtain ⟨h1, h2, h3⟩ := h
    cases rest with
    | nil => exact List.chain'_singleton c
    | cons d rest2 =>
      rw [List.chain'_cons]
      refine ⟨?_, ih _ _ _ _ h3⟩
      obtain ⟨h4, h5, _⟩ := h3
      rw [h1, h2]
      exact ⟨h4, h5⟩

theorem tiled_last :
    ∀ (out : List svn_diff_t) (s t e f : Int), Tiled s t out e f →
      ∀ c, out.getLast? = some c →
        c.original_start + c.original_length = e ∧
        c.modified_start + c.modified_length = f := by
  intro out
  induction out with
  | nil => intro s t e f _ c hc; simp at hc
  | cons c rest ih =>
    intro s t e f h d hd
    obtain ⟨h1, h2, h3⟩ := h
    cases rest with
    | nil =>
      simp at hd
      subst hd
      obtain ⟨h4, h5⟩ := h3
      rw [h1, h2]
      exact ⟨h4, h5⟩
    | cons d2 rest2 =>
      rw [List.getLast?_cons_cons] at hd
      exact ih _ _ _ _ h3 d hd

theorem endsInTerminator_tail (r : svn_diff__lcs_t) (rest : List svn_diff__lcs_t)
    (h : EndsInTerminator (r :: rest)) (hz : r.length ≠ 0) : EndsInTerminator rest := by
  cases rest with
  | nil =>
    simp [EndsInTerminator] at h
    exact absurd h hz
  | cons s rest2 =>
    simpa [EndsInTerminator, List.getLast?_cons_cons] using h

theorem diff_isSome_of_endsInTerminator (wc : Bool) :
    ∀ (lcs : List svn_diff__lcs_t) (o m : Int), EndsInTerminator lcs →
      ∃ out, svn_diff__diff lcs o m wc = some out := by
  intro lcs
  induction lcs with
  | nil => intro o m h; simp [EndsInTerminator] at h
  | cons r rest ih =>
    intro o m h
    by_cases hz : r.length = 0
    · exact ⟨_, diff_cons_zero r rest o m wc hz⟩
    · obtain ⟨out, hout⟩ := ih _ _ (endsInTerminator_tail r rest h hz)
      exact ⟨_, by rw [diff_cons_ne r rest o m wc hz, hout]; rfl⟩

theorem common_chunk_origin :
    ∀ (lcs : List svn_diff__lcs_t) (o m : Int) (wc : Bool) (out : List svn_diff_t),
      svn_diff__diff lcs o m wc = some out →
      ∀ c ∈ out, c.type = svn_diff__type_e.svn_diff__type_common →
        ∃ r ∈ lcs, r.length ≠ 0 ∧ c = common_chunk r r.position0_offset r.position1_offset := by
  intro lcs
  induction lcs with
  | nil => intro o m wc out h; simp [svn_diff__diff] at h
  | cons r rest ih =>
    intro o m wc out hout c hc hty
    have hgap : c ∉ gap_chunks r o m := by
      intro hmem
      unfold gap_chunks at hmem
      split at hmem
      · simp only [List.mem_singleton] at hmem
        subst hmem
        simp [modified_chunk] at hty
      · simp at hmem
    by_cases hz : r.length = 0
    · rw [diff_cons_zero r rest o m wc hz] at hout
      cases hout
      exact absurd hc hgap
    · rw [diff_cons_ne r rest o m wc hz] at hout
      cases hrec : svn_diff__diff rest (r.position0_offset + r.length)
          (r.position1_offset + r.length) wc with
      | none => rw [hrec] at hout; cases hout
      | some out2 =>
        rw [hrec] at hout
        cases hout
        rcases List.mem_append.1 hc with h1 | h1
        · exact absurd h1 hgap
        · rcases List.mem_append.1 h1 with h2 | h2
          · refine ⟨r, List.mem_cons_self _ _, hz, ?_⟩
            unfold common_chunks at h2
            split at h2
            · simpa using h2
            · simp at h2
          · obtain ⟨q, hq, hq2⟩ := ih _ _ wc out2 hrec c h2 hty
            exact ⟨q, List.mem_cons_of_mem _ hq, hq2⟩

theorem alternation_from :
    ∀ (lcs : List svn_diff__lcs_t) (o m : Int) (out : List svn_diff_t),
      svn_diff__diff lcs o m true = some out →
      out.Chain' (fun c d =>
        (c.type = svn_diff__type_e.svn_diff__type_diff_modified →
          d.type = svn_diff__type_e.svn_diff__type_common) ∧
        (d.type = svn_diff__type_e.svn_diff__type_diff_modified →
          c.type = svn_diff__type_e.svn_diff__type_common)) := by
  intro lcs
  induction lcs with
  | nil => intro o m out h; simp [svn_diff__diff] at h
  | cons r rest ih =>
    intro o m out hout
    by_cases hz : r.length = 0
    · rw [diff_cons_zero r rest o m true hz] at hout
      cases hout
      unfold gap_chunks
      split
      · exact List.chain'_singleton _
      · exact List.chain'_nil
    · rw [diff_cons_ne r rest o m true hz] at hout
      cases hrec : svn_diff__diff rest (r.position0_offset + r.length)
          (r.position1_offset + r.length) true with
      | none => rw [hrec] at hout; cases hout
      | some out2 =>
        rw [hrec] at hout
        cases hout
        have h2 := ih _ _ out2 hrec
        have hcommon : (common_chunks r true ++ out2).Chain' (fun c d =>
            (c.type = svn_diff__type_e.svn_diff__type_diff_modified →
              d.type = svn_diff__type_e.svn_diff__type_common) ∧
            (d.type = svn_diff__type_e.svn_diff__type_diff_modified →
              c.type = svn_diff__type_e.svn_diff__type_common)) := by
          simp only [common_chunks, if_true, List.singleton_append]
          rw [List.chain'_cons']
          refine ⟨?_, h2⟩
          intro d _
          simp [common_chunk]
        unfold gap_chunks
        split
        · simp only [common_chunks, if_true, List.singleton_append] at hcommon ⊢
          rw [List.chain'_cons]
          refine ⟨?_, hcommon⟩
          simp [common_chunk, modified_chunk]
        · simpa using hcommon

theorem filter_gap_chunks (r : svn_diff__lcs_t) (o m : Int) :
    (gap_chunks r o m).filter
      (fun c => decide (c.type = svn_diff__type_e.svn_diff__type_diff_modified))
    = gap_chunks r o m := by
  unfold gap_chunks
  split <;> simp [modified_chunk]

theorem filter_only_from :
    ∀ (lcs : List svn_diff__lcs_t) (o m : Int),
      svn_diff__diff lcs o m false =
        (svn_diff__diff lcs o m true).map (fun out => out.filter
          (fun c => decide (c.type = svn_diff__type_e.svn_diff__type_diff_modified))) := by
  intro lcs
  induction lcs with
  | nil => intro o m; simp [svn_diff__diff]
  | cons r rest ih =>
    intro o m
    by_cases hz : r.length = 0
    · rw [diff_cons_zero r rest o m false hz, diff_cons_zero r rest o m true hz]
      simp [filter_gap_chunks]
    · rw [diff_cons_ne r rest o m false hz, diff_cons_ne r rest o m true hz, ih]
      cases svn_diff__diff rest (r.position0_offset + r.length)
          (r.position1_offset + r.length) true with
      | none => rfl
      | some out2 =>
        simp [filter_gap_chunks, common_chunks, common_chunk]

theorem diff_append (wc : Bool) (tail : List svn_diff__lcs_t) :
    ∀ (pre : List svn_diff__lcs_t) (o m : Int), (∀ p ∈ pre, p.length ≠ 0) →
      ∃ out1, (∀ a b : Int, svn_diff__diff (pre ++ [⟨a, b, 0⟩]) o m wc =
            some (out1 ++ gap_chunks ⟨a, b, 0⟩ (cursors_after pre o m).1 (cursors_after pre o m).2)) ∧
        svn_diff__diff (pre ++ tail) o m wc =
          (svn_diff__diff tail (cursors_after pre o m).1 (cursors_after pre o m).2 wc).map
            (fun out2 => out1 ++ out2) := by
  intro pre
  induction pre with
  | nil =>
    intro o m _
    refine ⟨[], ?_, ?_⟩
    · intro a b
      simp [cursors_after, diff_cons_zero]
    · simp only [cursors_after, List.foldl_nil, List.nil_append]
      cases svn_diff__diff tail o m wc <;> rfl
  | cons p pre ih =>
    intro o m hne
    have hp : p.length ≠ 0 := hne p (List.mem_cons_self _ _)
    obtain ⟨out1, h1, h2⟩ := ih (p.position0_offset + p.length) (p.position1_offset + p.length)
      (fun q hq => hne q (List.mem_cons_of_mem _ hq))
    have hcur : cursors_after (p :: pre) o m =
        cursors_after pre (p.position0_offset + p.length) (p.position1_offset + p.length) := rfl
    refine ⟨gap_chunks p o m ++ (common_chunks p wc ++ out1), ?_, ?_⟩
    · intro a b
      rw [hcur, List.cons_append, diff_cons_ne p _ o m wc hp, h1 a b]
      simp
    · rw [hcur, List.cons_append, diff_cons_ne p _ o m wc hp, h2]
      cases svn_diff__diff tail
          (cursors_after pre (p.position0_offset + p.length) (p.position1_offset + p.length)).1
          (cursors_after pre (p.position0_offset + p.length) (p.position1_offset + p.length)).2
          wc with
      | none => rfl
      | some out2 => simp

theorem endsInTerminator_drop (r : svn_diff__lcs_t) (rest : List svn_diff__lcs_t)
    (hr : r.length ≠ 0) :
    ∀ (pre : List svn_diff__lcs_t), (∀ p ∈ pre, p.length ≠ 0) →
      EndsInTerminator (pre ++ r :: rest) → EndsInTerminator rest := by
  intro pre
  induction pre with
  | nil => intro _ h; exact endsInTerminator_tail r rest h hr
  | cons p pre ih =>
    intro hne h
    exact ih (fun q hq => hne q (List.mem_cons_of_mem _ hq))
      (endsInTerminator_tail p _ h (hne p (List.mem_cons_self _ _)))

/-! ## Coverage, tiling and accounting on ordered chains -/

/-- C1 (coverage).  For every ordered LCS chain for `(N, M)` the call
`svn_diff__diff(lcs, 1, 1, TRUE)` returns a chain of chunks whose
`original_length` values sum to `N` and whose `modified_length` values sum
to `M`. -/
theorem svn_diff__diff_coverage (N M : Int) (lcs : List svn_diff__lcs_t)
    (h : OrderedChain N M lcs) :
    ∃ out, svn_diff__diff lcs 1 1 true = some out ∧
      (out.map svn_diff_t.original_length).sum = N ∧
      (out.map svn_diff_t.modified_length).sum = M := by
  have hf := orderedFrom_of_orderedChain h
  obtain ⟨out, hout⟩ := diff_isSome_of_orderedFrom N M true lcs 1 1 hf
  have hs := coverage_from N M lcs 1 1 hf out hout
  refine ⟨out, hout, ?_, ?_⟩
  · have := hs.1
    unfold sum_original_length at this
    omega
  · have := hs.2
    unfold sum_modified_length at this
    omega

/-- Witness of C1: original `A B C D` against modified `A C` (runs `(1,1,1)`
and `(3,2,1)`, terminator `(5,3,0)`), so `N = 4` and `M = 2`. -/
theorem svn_diff__diff_coverage_witness :
    OrderedChain 4 2 [⟨1, 1, 1⟩, ⟨3, 2, 1⟩, ⟨5, 3, 0⟩] ∧
    ∃ out, svn_diff__diff [⟨1, 1, 1⟩, ⟨3, 2, 1⟩, ⟨5, 3, 0⟩] 1 1 true = some out ∧
      (out.map svn_diff_t.original_length).sum = 4 ∧
      (out.map svn_diff_t.modified_length).sum = 2 :=
  ⟨by decide, svn_diff__diff_coverage 4 2 [⟨1, 1, 1⟩, ⟨3, 2, 1⟩, ⟨5, 3, 0⟩] (by decide)⟩

/-- C2 (tiling).  For every ordered LCS chain for `(N, M)` the call
`svn_diff__diff(lcs, 1, 1, TRUE)` returns a chain of chunks in which the first
chunk, if there is one, starts at `0` on both sides, every later chunk starts
on each side where the chunk before it ends (start plus length), and the last
chunk ends at `N` on the original side and at `M` on the modified side. -/
theorem svn_diff__diff_tiling (N M : Int) (lcs : List svn_diff__lcs_t)
    (h : OrderedChain N M lcs) :
    ∃ out, svn_diff__diff lcs 1 1 true = some out ∧
      (∀ c, out.head? = some c → c.original_start = 0 ∧ c.modified_start = 0) ∧
      out.Chain' (fun c d =>
        d.original_start = c.original_start + c.original_length ∧
        d.modified_start = c.modified_start + c.modified_length) ∧
      (∀ c, out.getLast? = some c →
        c.original_start + c.original_length = N ∧
        c.modified_start + c.modified_length = M) := by
  have hf := orderedFrom_of_orderedChain h
  obtain ⟨out, hout⟩ := diff_isSome_of_orderedFrom N M true lcs 1 1 hf
  have ht := tiling_from N M lcs 1 1 hf out hout
  exact ⟨out, hout, tiled_head _ _ _ _ out ht, tiled_chain out _ _ _ _ ht,
    tiled_last out _ _ _ _ ht⟩

/-- Witness of C2: original `A B C` against modified `A X C` (runs `(1,1,1)`
and `(3,3,1)`, terminator `(4,4,0)`), so `N = M = 3`. -/
theorem svn_diff__diff_tiling_witness :
    OrderedChain 3 3 [⟨1, 1, 1⟩, ⟨3, 3, 1⟩, ⟨4, 4, 0⟩] ∧
    ∃ out, svn_diff__diff [⟨1, 1, 1⟩, ⟨3, 3, 1⟩, ⟨4, 4, 0⟩] 1 1 true = some out ∧
      (∀ c, out.head? = some c → c.original_start = 0 ∧ c.modified_start = 0) ∧
      out.Chain' (fun c d =>
        d.original_start = c.original_start + c.original_length ∧
        d.modified_start = c.modified_start + c.modified_length) ∧
      (∀ c, out.getLast? = some c →
        c.original_start + c.original_length = 3 ∧
        c.modified_start + c.modified_length = 3) :=
  ⟨by decide, svn_diff__diff_tiling 3 3 [⟨1, 1, 1⟩, ⟨3, 3, 1⟩, ⟨4, 4, 0⟩] (by decide)⟩

/-- C4 (optimality accounting).  For every ordered LCS chain for `(N, M)` and
either value of `want_common`, `svn_diff__diff(lcs, 1, 1, want_common)` returns
a chain of chunks in which `original_length + modified_length`, summed over the
chunks of type `modified`, equals `N + M - 2 * S`, where `S` is the sum of the
lengths of the runs of the chain. -/
theorem svn_diff__diff_optimality_accounting (N M : Int) (lcs : List svn_diff__lcs_t)
    (want_common : Bool) (h : OrderedChain N M lcs) :
    ∃ out, svn_diff__diff lcs 1 1 want_common = some out ∧
      ((out.filter (fun c =>
          decide (c.type = svn_diff__type_e.svn_diff__type_diff_modified))).map
        (fun c => c.original_length + c.modified_length)).sum
      = N + M - 2 * (lcs.map svn_diff__lcs_t.length).sum := by
  have hf := orderedFrom_of_orderedChain h
  obtain ⟨out, hout⟩ := diff_isSome_of_orderedFrom N M want_common lcs 1 1 hf
  have ha := accounting_from N M want_common lcs 1 1 hf out hout
  refine ⟨out, hout, ?_⟩
  unfold modified_total lcs_length at ha
  omega

/-- Witness of C4: original `A B A B` against modified `A B` without common
chunks (run `(1,1,2)`, terminator `(5,3,0)`), so `N = 4`, `M = 2`, `S = 2`. -/
theorem svn_diff__diff_optimality_accounting_witness :
    OrderedChain 4 2 [⟨1, 1, 2⟩, ⟨5, 3, 0⟩] ∧
    ∃ out, svn_diff__diff [⟨1, 1, 2⟩, ⟨5, 3, 0⟩] 1 1 false = some out ∧
      ((out.filter (fun c =>
          decide (c.type = svn_diff__type_e.svn_diff__type_diff_modified))).map
        (fun c => c.original_length + c.modified_length)).sum
      = 4 + 2 - 2 * (([⟨1, 1, 2⟩, ⟨5, 3, 0⟩] : List svn_diff__lcs_t).map
          svn_diff__lcs_t.length).sum :=
  ⟨by decide, svn_diff__diff_optimality_accounting 4 2 [⟨1, 1, 2⟩, ⟨5, 3, 0⟩] false (by decide)⟩

/-! ## Properties of the walk on arbitrary chains -/

/-- C3 (common-set equality).  Let `orig` and `mod` give the token at each
0-based index of the two sources, and let every run `(p0, p1, len)` of the chain
be consistent: `orig (p0 - 1 + i) = mod (p1 - 1 + i)` for `0 ≤ i < len`.  Then
`svn_diff__diff(lcs, o, m, TRUE)` returns a chain in which every chunk of type
`common` has `original_length = modified_length` and
`orig (original_start + i) = mod (modified_start + i)` for every `i` from `0`
up to that length. -/
theorem svn_diff__diff_common_set_equality {τ : Type} (orig mod : Int → τ)
    (lcs : List svn_diff__lcs_t) (o m : Int)
    (hterm : EndsInTerminator lcs)
    (hcons : ∀ r ∈ lcs, ∀ i : Int, 0 ≤ i → i < r.length →
      orig (r.position0_offset - 1 + i) = mod (r.position1_offset - 1 + i)) :
    ∃ out, svn_diff__diff lcs o m true = some out ∧
      ∀ c ∈ out, c.type = svn_diff__type_e.svn_diff__type_common →
        c.original_length = c.modified_length ∧
        ∀ i : Int, 0 ≤ i → i < c.original_length →
          orig (c.original_start + i) = mod (c.modified_start + i) := by
  obtain ⟨out, hout⟩ := diff_isSome_of_endsInTerminator true lcs o m hterm
  refine ⟨out, hout, ?_⟩
  intro c hc hty
  obtain ⟨r, hr, _, hcr⟩ := common_chunk_origin lcs o m true out hout c hc hty
  subst hcr
  exact ⟨rfl, fun i h0 h1 => hcons r hr i h0 h1⟩

/-- Witness of C3: original `10 20 30` against modified `10 99 30`, with the
runs `(1,1,1)` and `(3,3,1)` and the terminator `(4,4,0)`. -/
theorem svn_diff__diff_common_set_equality_witness :
    ∃ out, svn_diff__diff [⟨1, 1, 1⟩, ⟨3, 3, 1⟩, ⟨4, 4, 0⟩] 1 1 true = some out ∧
      ∀ c ∈ out, c.type = svn_diff__type_e.svn_diff__type_common →
        c.original_length = c.modified_length ∧
        ∀ i : Int, 0 ≤ i → i < c.original_length →
          (fun k : Int => if k = 0 then 10 else if k = 1 then 20 else (30 : Nat))
              (c.original_start + i) =
            (fun k : Int => if k = 0 then 10 else if k = 1 then 99 else (30 : Nat))
              (c.modified_start + i) :=
  svn_diff__diff_common_set_equality
    (fun k : Int => if k = 0 then 10 else if k = 1 then 20 else (30 : Nat))
    (fun k : Int => if k = 0 then 10 else if k = 1 then 99 else (30 : Nat))
    [⟨1, 1, 1⟩, ⟨3, 3, 1⟩, ⟨4, 4, 0⟩] 1 1 (by decide)
    (by
      intro r hr i h0 h1
      simp only [List.mem_cons, List.mem_singleton, List.not_mem_nil, or_false] at hr
      rcases hr with rfl | rfl | rfl
      · have hi : i = 0 := by simp only at h1; omega
        subst hi
        rfl
      · have hi : i = 0 := by simp only at h1; omega
        subst hi
        rfl
      · simp only at h1
        omega)

/-- C5 (modified-chunk disjointness).  For every chain that ends in a length-0
terminator and all cursors, `svn_diff__diff(lcs, o, m, TRUE)` returns a chain
of chunks in which, for every two neighbouring chunks, a first chunk of type
`modified` is followed by a chunk of type `common` and a second chunk of type
`modified` is preceded by a chunk of type `common`; so a `modified` chunk has a
`common` chunk or nothing on each side, and no two `modified` chunks are
neighbours. -/
theorem svn_diff__diff_modified_disjoint (lcs : List svn_diff__lcs_t) (o m : Int)
    (hterm : EndsInTerminator lcs) :
    ∃ out, svn_diff__diff lcs o m true = some out ∧
      out.Chain' (fun c d =>
        (c.type = svn_diff__type_e.svn_diff__type_diff_modified →
          d.type = svn_diff__type_e.svn_diff__type_common) ∧
        (d.type = svn_diff__type_e.svn_diff__type_diff_modified →
          c.type = svn_diff__type_e.svn_diff__type_common)) ∧
      out.Chain' (fun c d =>
        ¬ (c.type = svn_diff__type_e.svn_diff__type_diff_modified ∧
           d.type = svn_diff__type_e.svn_diff__type_diff_modified)) := by
  obtain ⟨out, hout⟩ := diff_isSome_of_endsInTerminator true lcs o m hterm
  have h := alternation_from lcs o m out hout
  refine ⟨out, hout, h, ?_⟩
  refine List.Chain'.imp ?_ h
  intro c d hcd hboth
  have := hcd.1 hboth.1
  rw [hboth.2] at this
  cases this

/-- Witness of C5: original `A B C D` against modified `A C`. -/
theorem svn_diff__diff_modified_disjoint_witness :
    ∃ out, svn_diff__diff [⟨1, 1, 1⟩, ⟨3, 2, 1⟩, ⟨5, 3, 0⟩] 1 1 true = some out ∧
      out.Chain' (fun c d =>
        (c.type = svn_diff__type_e.svn_diff__type_diff_modified →
          d.type = svn_diff__type_e.svn_diff__type_common) ∧
        (d.type = svn_diff__type_e.svn_diff__type_diff_modified →
          c.type = svn_diff__type_e.svn_diff__type_common)) ∧
      out.Chain' (fun c d =>
        ¬ (c.type = svn_diff__type_e.svn_diff__type_diff_modified ∧
           d.type = svn_diff__type_e.svn_diff__type_diff_modified)) :=
  svn_diff__diff_modified_disjoint [⟨1, 1, 1⟩, ⟨3, 2, 1⟩, ⟨5, 3, 0⟩] 1 1 (by decide)

/-- C6 (`want_common` only filters).  For every chain that ends in a length-0
terminator and all cursors, both calls return a chain; the chain of
`svn_diff__diff(lcs, o, m, FALSE)` is the chain of
`svn_diff__diff(lcs, o, m, TRUE)` with the chunks of type `common` removed
(same chunks of type `modified`, same fields, same order), and it contains no
chunk of type `common`. -/
theorem svn_diff__diff_want_common_filters (lcs : List svn_diff__lcs_t) (o m : Int)
    (hterm : EndsInTerminator lcs) :
    ∃ out_true out_false,
      svn_diff__diff lcs o m true = some out_true ∧
      svn_diff__diff lcs o m false = some out_false ∧
      out_false = out_true.filter
        (fun c => decide (c.type = svn_diff__type_e.svn_diff__type_diff_modified)) ∧
      ∀ c ∈ out_false, c.type ≠ svn_diff__type_e.svn_diff__type_common := by
  obtain ⟨out, hout⟩ := diff_isSome_of_endsInTerminator true lcs o m hterm
  refine ⟨out, _, hout, ?_, rfl, ?_⟩
  · rw [filter_only_from, hout]
    rfl
  · intro c hc
    have := (List.mem_filter.1 hc).2
    simp only [decide_eq_true_eq] at this
    rw [this]
    decide

/-- Witness of C6: original `A B A B` against modified `A B`. -/
theorem svn_diff__diff_want_common_filters_witness :
    ∃ out_true out_false,
      svn_diff__diff [⟨1, 1, 2⟩, ⟨5, 3, 0⟩] 1 1 true = some out_true ∧
      svn_diff__diff [⟨1, 1, 2⟩, ⟨5, 3, 0⟩] 1 1 false = some out_false ∧
      out_false = out_true.filter
        (fun c => decide (c.type = svn_diff__type_e.svn_diff__type_diff_modified)) ∧
      ∀ c ∈ out_false, c.type ≠ svn_diff__type_e.svn_diff__type_common :=
  svn_diff__diff_want_common_filters [⟨1, 1, 2⟩, ⟨5, 3, 0⟩] 1 1 (by decide)

/-! ## Particular chains -/

/-- C7 (identity).  For `N ≥ 1` and the chain of a source of `N` tokens diffed
against itself (the run `(1, 1, N)` and the terminator `(N+1, N+1, 0)`),
`svn_diff__diff(lcs, 1, 1, TRUE)` is the single chunk `common(0, N, 0, N)` and
`svn_diff__diff(lcs, 1, 1, FALSE)` is the empty chain. -/
theorem svn_diff__diff_identity (N : Int) (hN : 1 ≤ N) :
    svn_diff__diff [⟨1, 1, N⟩, ⟨N + 1, N + 1, 0⟩] 1 1 true =
      some [⟨svn_diff__type_e.svn_diff__type_common, 0, N, 0, N, 0, 0⟩] ∧
    svn_diff__diff [⟨1, 1, N⟩, ⟨N + 1, N + 1, 0⟩] 1 1 false = some [] := by
  have hne : N ≠ 0 := by omega
  have h1 : (1 : Int) + N = N + 1 := by omega
  constructor <;> simp [svn_diff__diff, common_chunk, hne, h1]

/-- Witness of C7: a source of three tokens against itself. -/
theorem svn_diff__diff_identity_witness :
    svn_diff__diff [⟨1, 1, 3⟩, ⟨3 + 1, 3 + 1, 0⟩] 1 1 true =
      some [⟨svn_diff__type_e.svn_diff__type_common, 0, 3, 0, 3, 0, 0⟩] ∧
    svn_diff__diff [⟨1, 1, 3⟩, ⟨3 + 1, 3 + 1, 0⟩] 1 1 false = some [] :=
  svn_diff__diff_identity 3 (by decide)

/-- C8 (terminator-only chain).  For `N, M ≥ 0` and either value of
`want_common`, on the chain that is just the terminator `(N+1, M+1, 0)` the
call `svn_diff__diff(lcs, 1, 1, want_common)` returns the empty chain when
`N = M = 0` and the single chunk `modified(0, N, 0, M)` otherwise; the chain
has no chunk of type `common`. -/
theorem svn_diff__diff_terminator_only (N M : Int) (want_common : Bool)
    (hN : 0 ≤ N) (hM : 0 ≤ M) :
    ∃ out, svn_diff__diff [⟨N + 1, M + 1, 0⟩] 1 1 want_common = some out ∧
      out = (if N = 0 ∧ M = 0 then []
        else [⟨svn_diff__type_e.svn_diff__type_diff_modified, 0, N, 0, M, 0, 0⟩]) ∧
      ∀ c ∈ out, c.type ≠ svn_diff__type_e.svn_diff__type_common := by
  refine ⟨_, diff_cons_zero _ _ _ _ _ rfl, ?_, ?_⟩
  · unfold gap_chunks
    by_cases h : N = 0 ∧ M = 0
    · have h2 : ¬ ((1 : Int) < N + 1 ∨ (1 : Int) < M + 1) := by omega
      rw [if_pos h]
      exact if_neg h2
    · have h2 : ((1 : Int) < N + 1 ∨ (1 : Int) < M + 1) := by omega
      rw [if_neg h]
      refine (if_pos h2).trans ?_
      simp [modified_chunk]
  · intro c hc
    unfold gap_chunks at hc
    split at hc
    · simp only [List.mem_singleton] at hc
      subst hc
      simp [modified_chunk]
    · simp at hc

/-- Witness of C8: an empty original against modified `X Y`. -/
theorem svn_diff__diff_terminator_only_witness :
    ∃ out, svn_diff__diff [⟨0 + 1, 2 + 1, 0⟩] 1 1 true = some out ∧
      out = (if (0 : Int) = 0 ∧ (2 : Int) = 0 then []
        else [⟨svn_diff__type_e.svn_diff__type_diff_modified, 0, 0, 0, 2, 0, 0⟩]) ∧
      ∀ c ∈ out, c.type ≠ svn_diff__type_e.svn_diff__type_common :=
  svn_diff__diff_terminator_only 0 2 true (by decide) (by decide)

/-! ## The two rules of one iteration -/

/-- C9 as stated fails without common chunks: on the chain of original
`A B A B` against modified `A B` (run `(1,1,2)`, terminator `(5,3,0)`) with
cursors `(1, 1)` and `want_common = FALSE`, neither cursor is below the offsets
of the first run, yet the output begins with the chunk `modified(2, 2, 2, 0)`,
the gap in front of the terminator. -/
theorem svn_diff__diff_gap_rule_counterexample :
    ¬ (∀ out, svn_diff__diff [⟨1, 1, 2⟩, ⟨5, 3, 0⟩] 1 1 false = some out →
        (BeginsWithModified out ↔ ((1 : Int) < 1 ∨ (1 : Int) < 1))) := by
  intro h
  have h2 := h [⟨svn_diff__type_e.svn_diff__type_diff_modified, 2, 2, 2, 0, 0, 0⟩] (by decide)
  revert h2
  decide

/-- C9, amended (gap rule).  For every chain that ends in a length-0
terminator, with first run at offsets `(a, b)`, all cursors `(o, m)` and either
value of `want_common`, `svn_diff__diff` returns a chain of chunks such that:
if `o < a` or `m < b`, its first chunk is the chunk of type `modified` with
`original_start = o - 1`, `original_length = a - o`, `modified_start = m - 1`,
`modified_length = b - m`; and if `want_common` is set, or the first run has
length `0`, it begins with a chunk of type `modified` exactly when `o < a` or
`m < b`. -/
theorem svn_diff__diff_gap_rule (r : svn_diff__lcs_t) (rest : List svn_diff__lcs_t)
    (o m : Int) (want_common : Bool) (hterm : EndsInTerminator (r :: rest)) :
    ∃ out, svn_diff__diff (r :: rest) o m want_common = some out ∧
      ((o < r.position0_offset ∨ m < r.position1_offset) →
        out.head? = some ⟨svn_diff__type_e.svn_diff__type_diff_modified,
          o - 1, r.position0_offset - o, m - 1, r.position1_offset - m, 0, 0⟩) ∧
      ((want_common = true ∨ r.length = 0) →
        (BeginsWithModified out ↔ (o < r.position0_offset ∨ m < r.position1_offset))) := by
  obtain ⟨out, hout⟩ := diff_isSome_of_endsInTerminator want_common (r :: rest) o m hterm
  refine ⟨out, hout, ?_, ?_⟩
  · intro hgap
    by_cases hz : r.length = 0
    · rw [diff_cons_zero r rest o m want_common hz] at hout
      cases hout
      simp [gap_chunks, hgap, modified_chunk]
    · rw [diff_cons_ne r rest o m want_common hz] at hout
      cases hrec : svn_diff__diff rest (r.position0_offset + r.length)
          (r.position1_offset + r.length) want_common with
      | none => rw [hrec] at hout; cases hout
      | some out2 =>
        rw [hrec] at hout
        cases hout
        simp [gap_chunks, hgap, modified_chunk]
  · intro hwc
    by_cases hgap : o < r.position0_offset ∨ m < r.position1_offset
    · by_cases hz : r.length = 0
      · rw [diff_cons_zero r rest o m want_common hz] at hout
        cases hout
        simp [gap_chunks, hgap, modified_chunk, BeginsWithModified]
      · rw [diff_cons_ne r rest o m want_common hz] at hout
        cases hrec : svn_diff__diff rest (r.position0_offset + r.length)
            (r.position1_offset + r.length) want_common with
        | none => rw [hrec] at hout; cases hout
        | some out2 =>
          rw [hrec] at hout
          cases hout
          simp [gap_chunks, hgap, modified_chunk, BeginsWithModified]
    · by_cases hz : r.length = 0
      · rw [diff_cons_zero r rest o m want_common hz] at hout
        cases hout
        simp [gap_chunks, hgap, BeginsWithModified]
      · have hw : want_common = true := by
          rcases hwc with h | h
          · exact h
          · exact absurd h hz
        subst hw
        rw [diff_cons_ne r rest o m true hz] at hout
        cases hrec : svn_diff__diff rest (r.position0_offset + r.length)
            (r.position1_offset + r.length) true with
        | none => rw [hrec] at hout; cases hout
        | some out2 =>
          rw [hrec] at hout
          cases hout
          simp [gap_chunks, hgap, common_chunks, common_chunk, BeginsWithModified]

/-- Witness of the amended C9: original `A B C` against modified `A B C D`,
entered at its terminator `(4, 5, 0)` with the cursors `(4, 4)` left by the run
`(1, 1, 3)`: a pure insertion. -/
theorem svn_diff__diff_gap_rule_witness :
    ∃ out, svn_diff__diff [⟨4, 5, 0⟩] 4 4 true = some out ∧
      (((4 : Int) < 4 ∨ (4 : Int) < 5) →
        out.head? = some ⟨svn_diff__type_e.svn_diff__type_diff_modified,
          4 - 1, 4 - 4, 4 - 1, 5 - 4, 0, 0⟩) ∧
      ((true = true ∨ (0 : Int) = 0) →
        (BeginsWithModified out ↔ ((4 : Int) < 4 ∨ (4 : Int) < 5))) :=
  svn_diff__diff_gap_rule ⟨4, 5, 0⟩ [] 4 4 true (by decide)

/-- C10 (common-chunk rule).  Let the chain end in a length-0 terminator and
let `r = (a, b, len)` with `len ≠ 0` be a run of it that the loop reaches (every
run before it has a length other than `0`); let `(co, cm)` be the cursors when
the loop arrives at `r`.  Then the output of `svn_diff__diff(lcs, o, m, TRUE)`
is: the chunks of the runs before `r`, then the gap chunk of `r` (present
exactly when `co < a` or `cm < b`), then the chunk `common(a - 1, len, b - 1,
len)`, then the chunks of the rest of the chain walked from the cursors
`(a + len, b + len)`.  The chunks of the runs before `r` are given as the
output on those runs closed by a terminator at the cursors `(co, cm)`, which
adds no chunk. -/
theorem svn_diff__diff_common_chunk_rule (pre rest : List svn_diff__lcs_t)
    (r : svn_diff__lcs_t) (o m : Int)
    (hpre : ∀ p ∈ pre, p.length ≠ 0) (hr : r.length ≠ 0)
    (hterm : EndsInTerminator (pre ++ r :: rest)) :
    ∃ out1 out2,
      svn_diff__diff (pre ++ [⟨(cursors_after pre o m).1, (cursors_after pre o m).2, 0⟩])
        o m true = some out1 ∧
      svn_diff__diff rest (r.position0_offset + r.length) (r.position1_offset + r.length)
        true = some out2 ∧
      svn_diff__diff (pre ++ r :: rest) o m true =
        some (out1 ++
          ((if (cursors_after pre o m).1 < r.position0_offset ∨
                (cursors_after pre o m).2 < r.position1_offset then
              [⟨svn_diff__type_e.svn_diff__type_diff_modified,
                (cursors_after pre o m).1 - 1, r.position0_offset - (cursors_after pre o m).1,
                (cursors_after pre o m).2 - 1, r.position1_offset - (cursors_after pre o m).2,
                0, 0⟩]
            else []) ++
           (⟨svn_diff__type_e.svn_diff__type_common,
              r.position0_offset - 1, r.length, r.position1_offset - 1, r.length, 0, 0⟩ ::
            out2))) := by
  obtain ⟨out1, h1, h2⟩ := diff_append true (r :: rest) pre o m hpre
  obtain ⟨out2, hout2⟩ := diff_isSome_of_endsInTerminator true rest
    (r.position0_offset + r.length) (r.position1_offset + r.length)
    (endsInTerminator_drop r rest hr pre hpre hterm)
  refine ⟨out1, out2, ?_, hout2, ?_⟩
  · rw [h1]
    simp [gap_chunks]
  · rw [h2, diff_cons_ne r rest _ _ true hr, hout2]
    simp only [Option.map_some', gap_chunks, common_chunks, if_true, modified_chunk,
      common_chunk, List.singleton_append]

/-- Witness of C10: original `A B C D` against modified `A C`, at the second
run `(3, 2, 1)`, which has a gap chunk in front of it. -/
theorem svn_diff__diff_common_chunk_rule_witness :
    ∃ out1 out2,
      svn_diff__diff
        ([⟨1, 1, 1⟩] ++ [⟨(cursors_after [⟨1, 1, 1⟩] 1 1).1, (cursors_after [⟨1, 1, 1⟩] 1 1).2, 0⟩])
        1 1 true = some out1 ∧
      svn_diff__diff [⟨5, 3, 0⟩] ((3 : Int) + 1) ((2 : Int) + 1) true = some out2 ∧
      svn_diff__diff ([⟨1, 1, 1⟩] ++ ⟨3, 2, 1⟩ :: [⟨5, 3, 0⟩]) 1 1 true =
        some (out1 ++
          ((if (cursors_after [⟨1, 1, 1⟩] 1 1).1 < (3 : Int) ∨
                (cursors_after [⟨1, 1, 1⟩] 1 1).2 < (2 : Int) then
              [⟨svn_diff__type_e.svn_diff__type_diff_modified,
                (cursors_after [⟨1, 1, 1⟩] 1 1).1 - 1, 3 - (cursors_after [⟨1, 1, 1⟩] 1 1).1,
                (cursors_after [⟨1, 1, 1⟩] 1 1).2 - 1, 2 - (cursors_after [⟨1, 1, 1⟩] 1 1).2,
                0, 0⟩]
            else []) ++
           (⟨svn_diff__type_e.svn_diff__type_common, 3 - 1, 1, 2 - 1, 1, 0, 0⟩ :: out2))) :=
  svn_diff__diff_common_chunk_rule [⟨1, 1, 1⟩] [⟨5, 3, 0⟩] ⟨3, 2, 1⟩ 1 1
    (by decide) (by decide) (by decide)

/-! ## Further lemmas on the walk -/

theorem chunk_origin :
    ∀ (lcs : List svn_diff__lcs_t) (o m : Int) (wc : Bool) (out : List svn_diff_t),
      svn_diff__diff lcs o m wc = some out →
      ∀ c ∈ out,
        (∃ r ∈ lcs, ∃ o2 m2 : Int, (o2 < r.position0_offset ∨ m2 < r.position1_offset) ∧
          c = modified_chunk r o2 m2) ∨
        (∃ r ∈ lcs, r.length ≠ 0 ∧ c = common_chunk r r.position0_offset r.position1_offset) := by
  intro lcs
  induction lcs with
  | nil => intro o m wc out h; simp [svn_diff__diff] at h
  | cons r rest ih =>
    intro o m wc out hout c hc
    have hgap : c ∈ gap_chunks r o m →
        ∃ q ∈ r :: rest, ∃ o2 m2 : Int,
          (o2 < q.position0_offset ∨ m2 < q.position1_offset) ∧ c = modified_chunk q o2 m2 := by
      intro hmem
      unfold gap_chunks at hmem
      split at hmem
      · rename_i hcond
        simp only [List.mem_singleton] at hmem
        exact ⟨r, List.mem_cons_self _ _, o, m, hcond, hmem⟩
      · simp at hmem
    by_cases hz : r.length = 0
    · rw [diff_cons_zero r rest o m wc hz] at hout
      cases hout
      exact Or.inl (hgap hc)
    · rw [diff_cons_ne r rest o m wc hz] at hout
      cases hrec : svn_diff__diff rest (r.position0_offset + r.length)
          (r.position1_offset + r.length) wc with
      | none => rw [hrec] at hout; cases hout
      | some out2 =>
        rw [hrec] at hout
        cases hout
        rcases List.mem_append.1 hc with h1 | h1
        · exact Or.inl (hgap h1)
        · rcases List.mem_append.1 h1 with h2 | h2
          · refine Or.inr ⟨r, List.mem_cons_self _ _, hz, ?_⟩
            unfold common_chunks at h2
            split at h2
            · simpa using h2
            · simp at h2
          · rcases ih _ _ wc out2 hrec c h2 with ⟨q, hq, h3⟩ | ⟨q, hq, h3⟩
            · exact Or.inl ⟨q, List.mem_cons_of_mem _ hq, h3⟩
            · exact Or.inr ⟨q, List.mem_cons_of_mem _ hq, h3⟩

theorem nonneg_from (N M : Int) (wc : Bool) :
    ∀ (lcs : List svn_diff__lcs_t) (o m : Int), OrderedFrom N M o m lcs → 1 ≤ o → 1 ≤ m →
      ∀ out, svn_diff__diff lcs o m wc = some out →
        ∀ c ∈ out, 0 ≤ c.original_length ∧ 0 ≤ c.modified_length ∧
          0 ≤ c.original_start ∧ 0 ≤ c.modified_start := by
  intro lcs
  induction lcs with
  | nil => intro o m h; exact absurd h (by simp [OrderedFrom])
  | cons r rest ih =>
    intro o m h ho1 hm1 out hout c hc
    obtain ⟨ho, hm, h⟩ := h
    have hgap : c ∈ gap_chunks r o m → 0 ≤ c.original_length ∧ 0 ≤ c.modified_length ∧
        0 ≤ c.original_start ∧ 0 ≤ c.modified_start := by
      intro hmem
      unfold gap_chunks at hmem
      split at hmem
      · simp only [List.mem_singleton] at hmem
        subst hmem
        simp only [modified_chunk]
        omega
      · simp at hmem
    by_cases hz : r.length = 0
    · rw [diff_cons_zero r rest o m wc hz] at hout
      cases hout
      exact hgap hc
    · simp only [hz, if_false] at h
      rw [diff_cons_ne r rest o m wc hz] at hout
      cases hrec : svn_diff__diff rest (r.position0_offset + r.length)
          (r.position1_offset + r.length) wc with
      | none => rw [hrec] at hout; cases hout
      | some out2 =>
        rw [hrec] at hout
        cases hout
        rcases List.mem_append.1 hc with h1 | h1
        · exact hgap h1
        · rcases List.mem_append.1 h1 with h2 | h2
          · unfold common_chunks at h2
            split at h2
            · simp only [List.mem_singleton] at h2
              subst h2
              simp only [common_chunk]
              omega
            · simp at h2
          · exact ih _ _ h.2 (by omega) (by omega) out2 hrec c h2

theorem diff_runs_visited (wc : Bool) :
    ∀ (lcs : List svn_diff__lcs_t) (o m : Int),
      svn_diff__diff (runs_visited lcs) o m wc = svn_diff__diff lcs o m wc := by
  intro lcs
  induction lcs with
  | nil => intro o m; rfl
  | cons r rest ih =>
    intro o m
    by_cases hz : r.length = 0
    · simp only [runs_visited, hz, if_true]
      rw [diff_cons_zero r [] o m wc hz, diff_cons_zero r rest o m wc hz]
    · simp only [runs_visited, hz, if_false]
      rw [diff_cons_ne r _ o m wc hz, diff_cons_ne r rest o m wc hz, ih]

theorem runs_visited_spec :
    ∀ (lcs : List svn_diff__lcs_t), (∃ r ∈ lcs, r.length = 0) →
      runs_visited lcs <+: lcs ∧
      (runs_visited lcs).getLast?.map svn_diff__lcs_t.length = some 0 ∧
      (∀ r ∈ (runs_visited lcs).dropLast, r.length ≠ 0) := by
  intro lcs
  induction lcs with
  | nil => intro h; obtain ⟨r, hr, _⟩ := h; simp at hr
  | cons r rest ih =>
    intro h
    by_cases hz : r.length = 0
    · simp only [runs_visited, hz, if_true]
      refine ⟨?_, by simp [hz], by simp⟩
      exact ⟨rest, rfl⟩
    · have hrest : ∃ q ∈ rest, q.length = 0 := by
        obtain ⟨q, hq, hq0⟩ := h
        rcases List.mem_cons.1 hq with h1 | h1
        · subst h1; exact absurd hq0 hz
        · exact ⟨q, h1, hq0⟩
      obtain ⟨h1, h2, h3⟩ := ih hrest
      simp only [runs_visited, hz, if_false]
      have hne : runs_visited rest ≠ [] := by
        intro hnil
        rw [hnil] at h2
        simp at h2
      obtain ⟨a, l, hal⟩ := List.exists_cons_of_ne_nil hne
      refine ⟨?_, ?_, ?_⟩
      · obtain ⟨t, ht⟩ := h1
        exact ⟨t, by rw [List.cons_append, ht]⟩
      · rw [hal, List.getLast?_cons_cons, ← hal]
        exact h2
      · intro q hq
        rw [hal, List.dropLast_cons₂, ← hal] at hq
        rcases List.mem_cons.1 hq with h4 | h4
        · subst h4; exact hz
        · exact h3 q h4

theorem diff_length_le (wc : Bool) :
    ∀ (lcs : List svn_diff__lcs_t) (o m : Int) (out : List svn_diff_t),
      svn_diff__diff lcs o m wc = some out → out.length ≤ 2 * (runs_visited lcs).length := by
  intro lcs
  induction lcs with
  | nil => intro o m out h; simp [svn_diff__diff] at h
  | cons r rest ih =>
    intro o m out hout
    have hg : (gap_chunks r o m).length ≤ 1 := by
      unfold gap_chunks
      split <;> simp
    have hcm : (common_chunks r wc).length ≤ 1 := by
      unfold common_chunks
      split <;> simp
    by_cases hz : r.length = 0
    · rw [diff_cons_zero r rest o m wc hz] at hout
      cases hout
      simp only [runs_visited, hz, if_true, List.length_singleton]
      omega
    · rw [diff_cons_ne r rest o m wc hz] at hout
      cases hrec : svn_diff__diff rest (r.position0_offset + r.length)
          (r.position1_offset + r.length) wc with
      | none => rw [hrec] at hout; cases hout
      | some out2 =>
        rw [hrec] at hout
        cases hout
        have h2 := ih _ _ out2 hrec
        simp only [runs_visited, hz, if_false, List.length_cons, List.length_append]
        omega

theorem diff_isSome_of_exists_zero (wc : Bool) :
    ∀ (lcs : List svn_diff__lcs_t) (o m : Int), (∃ r ∈ lcs, r.length = 0) →
      ∃ out, svn_diff__diff lcs o m wc = some out := by
  intro lcs
  induction lcs with
  | nil => intro o m h; obtain ⟨r, hr, _⟩ := h; simp at hr
  | cons r rest ih =>
    intro o m h
    by_cases hz : r.length = 0
    · exact ⟨_, diff_cons_zero r rest o m wc hz⟩
    · have hrest : ∃ q ∈ rest, q.length = 0 := by
        obtain ⟨q, hq, hq0⟩ := h
        rcases List.mem_cons.1 hq with h1 | h1
        · subst h1; exact absurd hq0 hz
        · exact ⟨q, h1, hq0⟩
      obtain ⟨out, hout⟩ := ih _ _ hrest
      exact ⟨_, by rw [diff_cons_ne r rest o m wc hz, hout]; rfl⟩

/-! ## Field ranges of the chunks -/

/-- C11 (non-negative lengths).  For every ordered LCS chain for `(N, M)` and
either value of `want_common`, `svn_diff__diff(lcs, 1, 1, want_common)` returns
a chain in which every chunk has `original_length ≥ 0`, `modified_length ≥ 0`,
`original_start ≥ 0` and `modified_start ≥ 0`. -/
theorem svn_diff__diff_nonnegative (N M : Int) (lcs : List svn_diff__lcs_t)
    (want_common : Bool) (h : OrderedChain N M lcs) :
    ∃ out, svn_diff__diff lcs 1 1 want_common = some out ∧
      ∀ c ∈ out, 0 ≤ c.original_length ∧ 0 ≤ c.modified_length ∧
        0 ≤ c.original_start ∧ 0 ≤ c.modified_start := by
  have hf := orderedFrom_of_orderedChain h
  obtain ⟨out, hout⟩ := diff_isSome_of_orderedFrom N M want_common lcs 1 1 hf
  exact ⟨out, hout, nonneg_from N M want_common lcs 1 1 hf (le_refl 1) (le_refl 1) out hout⟩

/-- Witness of C11: original `A B C D` against modified `A C`. -/
theorem svn_diff__diff_nonnegative_witness :
    OrderedChain 4 2 [⟨1, 1, 1⟩, ⟨3, 2, 1⟩, ⟨5, 3, 0⟩] ∧
    ∃ out, svn_diff__diff [⟨1, 1, 1⟩, ⟨3, 2, 1⟩, ⟨5, 3, 0⟩] 1 1 true = some out ∧
      ∀ c ∈ out, 0 ≤ c.original_length ∧ 0 ≤ c.modified_length ∧
        0 ≤ c.original_start ∧ 0 ≤ c.modified_start :=
  ⟨by decide,
    svn_diff__diff_nonnegative 4 2 [⟨1, 1, 1⟩, ⟨3, 2, 1⟩, ⟨5, 3, 0⟩] true (by decide)⟩

/-- C12 (zero latest fields).  For every chain that ends in a length-0
terminator, all cursors and either value of `want_common`, `svn_diff__diff`
returns a chain in which every chunk, of type `common` or `modified`, has
`latest_start = 0` and `latest_length = 0`. -/
theorem svn_diff__diff_latest_zero (lcs : List svn_diff__lcs_t) (o m : Int)
    (want_common : Bool) (hterm : EndsInTerminator lcs) :
    ∃ out, svn_diff__diff lcs o m want_common = some out ∧
      ∀ c ∈ out, c.latest_start = 0 ∧ c.latest_length = 0 := by
  obtain ⟨out, hout⟩ := diff_isSome_of_endsInTerminator want_common lcs o m hterm
  refine ⟨out, hout, ?_⟩
  intro c hc
  rcases chunk_origin lcs o m want_common out hout c hc with
    ⟨r, _, o2, m2, _, h⟩ | ⟨r, _, _, h⟩
  · subst h
    exact ⟨rfl, rfl⟩
  · subst h
    exact ⟨rfl, rfl⟩

/-- Witness of C12: original `A B C` against modified `A X C`. -/
theorem svn_diff__diff_latest_zero_witness :
    ∃ out, svn_diff__diff [⟨1, 1, 1⟩, ⟨3, 3, 1⟩, ⟨4, 4, 0⟩] 1 1 true = some out ∧
      ∀ c ∈ out, c.latest_start = 0 ∧ c.latest_length = 0 :=
  svn_diff__diff_latest_zero [⟨1, 1, 1⟩, ⟨3, 3, 1⟩, ⟨4, 4, 0⟩] 1 1 true (by decide)

/-- C20 (no empty chunks).  For every chain with non-negative run lengths that
ends in a length-0 terminator, all cursors and either value of `want_common`,
`svn_diff__diff` returns a chain in which every chunk of type `modified` has
`original_length > 0` or `modified_length > 0`, and every chunk of type
`common` has `original_length = modified_length > 0`. -/
theorem svn_diff__diff_no_empty_chunk (lcs : List svn_diff__lcs_t) (o m : Int)
    (want_common : Bool) (hlen : ∀ r ∈ lcs, 0 ≤ r.length) (hterm : EndsInTerminator lcs) :
    ∃ out, svn_diff__diff lcs o m want_common = some out ∧
      ∀ c ∈ out,
        (c.type = svn_diff__type_e.svn_diff__type_diff_modified →
          0 < c.original_length ∨ 0 < c.modified_length) ∧
        (c.type = svn_diff__type_e.svn_diff__type_common →
          c.original_length = c.modified_length ∧ 0 < c.original_length) := by
  obtain ⟨out, hout⟩ := diff_isSome_of_endsInTerminator want_common lcs o m hterm
  refine ⟨out, hout, ?_⟩
  intro c hc
  rcases chunk_origin lcs o m want_common out hout c hc with
    ⟨r, _, o2, m2, hcond, h⟩ | ⟨r, hr, hz, h⟩
  · subst h
    refine ⟨fun _ => ?_, fun hty => ?_⟩
    · simp only [modified_chunk]
      omega
    · simp [modified_chunk] at hty
  · subst h
    refine ⟨fun hty => ?_, fun _ => ?_⟩
    · simp [common_chunk] at hty
    · have := hlen r hr
      exact ⟨rfl, by simp only [common_chunk]; omega⟩

/-- Witness of C20: original `A B C D` against modified `A C`. -/
theorem svn_diff__diff_no_empty_chunk_witness :
    ∃ out, svn_diff__diff [⟨1, 1, 1⟩, ⟨3, 2, 1⟩, ⟨5, 3, 0⟩] 1 1 true = some out ∧
      ∀ c ∈ out,
        (c.type = svn_diff__type_e.svn_diff__type_diff_modified →
          0 < c.original_length ∨ 0 < c.modified_length) ∧
        (c.type = svn_diff__type_e.svn_diff__type_common →
          c.original_length = c.modified_length ∧ 0 < c.original_length) :=
  svn_diff__diff_no_empty_chunk [⟨1, 1, 1⟩, ⟨3, 2, 1⟩, ⟨5, 3, 0⟩] 1 1 true
    (by decide) (by decide)

/-! ## The exit of the loop -/

/-- C15 (the terminator is the exit).  Let `t` be the first record of length
`0` of a chain (every record of `pre`, the part before it, has a length other
than `0`), and let `(co, cm)` be the cursors when the loop arrives at `t`.
For either value of `want_common` and whatever is linked after `t`, the output
is the chunks of the runs `pre` followed by the gap chunk of `t`, of type
`modified`, present exactly when `co < t.offset0` or `cm < t.offset1`, and by
nothing else: no `common` chunk for `t`, and no dependence on `rest`.  The
chunks of the runs `pre` are given as the output on `pre` closed by a
terminator at the cursors `(co, cm)`, which adds no chunk. -/
theorem svn_diff__diff_terminator_exit (pre : List svn_diff__lcs_t) (t : svn_diff__lcs_t)
    (o m : Int) (want_common : Bool)
    (hpre : ∀ p ∈ pre, p.length ≠ 0) (ht : t.length = 0) :
    ∃ out1,
      svn_diff__diff (pre ++ [⟨(cursors_after pre o m).1, (cursors_after pre o m).2, 0⟩])
        o m want_common = some out1 ∧
      ∀ rest : List svn_diff__lcs_t,
        svn_diff__diff (pre ++ t :: rest) o m want_common =
          some (out1 ++
            (if (cursors_after pre o m).1 < t.position0_offset ∨
                  (cursors_after pre o m).2 < t.position1_offset then
                [⟨svn_diff__type_e.svn_diff__type_diff_modified,
                  (cursors_after pre o m).1 - 1,
                  t.position0_offset - (cursors_after pre o m).1,
                  (cursors_after pre o m).2 - 1,
                  t.position1_offset - (cursors_after pre o m).2, 0, 0⟩]
              else [])) := by
  obtain ⟨out1, h1, _⟩ := diff_append want_common [] pre o m hpre
  have hfirst := h1 (cursors_after pre o m).1 (cursors_after pre o m).2
  have hnogap : gap_chunks ⟨(cursors_after pre o m).1, (cursors_after pre o m).2, 0⟩
      (cursors_after pre o m).1 (cursors_after pre o m).2 = [] := by
    simp [gap_chunks]
  rw [hnogap, List.append_nil] at hfirst
  refine ⟨out1, hfirst, ?_⟩
  intro rest
  obtain ⟨out3, h3, h4⟩ := diff_append want_common (t :: rest) pre o m hpre
  have hsame := h3 (cursors_after pre o m).1 (cursors_after pre o m).2
  rw [hnogap, List.append_nil, hfirst] at hsame
  cases hsame
  rw [h4, diff_cons_zero t rest _ _ want_common ht]
  simp only [Option.map_some', gap_chunks, modified_chunk]

/-- Witness of C15: original `A B C` against modified `A B C D`, with a stray
record linked after the terminator `(4, 5, 0)`. -/
theorem svn_diff__diff_terminator_exit_witness :
    ∃ out1,
      svn_diff__diff
        ([⟨1, 1, 3⟩] ++ [⟨(cursors_after [⟨1, 1, 3⟩] 1 1).1, (cursors_after [⟨1, 1, 3⟩] 1 1).2, 0⟩])
        1 1 true = some out1 ∧
      ∀ rest : List svn_diff__lcs_t,
        svn_diff__diff ([⟨1, 1, 3⟩] ++ ⟨4, 5, 0⟩ :: rest) 1 1 true =
          some (out1 ++
            (if (cursors_after [⟨1, 1, 3⟩] 1 1).1 < (4 : Int) ∨
                  (cursors_after [⟨1, 1, 3⟩] 1 1).2 < (5 : Int) then
                [⟨svn_diff__type_e.svn_diff__type_diff_modified,
                  (cursors_after [⟨1, 1, 3⟩] 1 1).1 - 1,
                  4 - (cursors_after [⟨1, 1, 3⟩] 1 1).1,
                  (cursors_after [⟨1, 1, 3⟩] 1 1).2 - 1,
                  5 - (cursors_after [⟨1, 1, 3⟩] 1 1).2, 0, 0⟩]
              else [])) :=
  svn_diff__diff_terminator_exit [⟨1, 1, 3⟩] ⟨4, 5, 0⟩ 1 1 true (by decide) rfl

/-- C19 (totality).  For every chain that contains a record of length `0`, all
cursors and either value of `want_common`, `svn_diff__diff` returns a chain of
chunks.  The records it reads, `runs_visited lcs`, are an initial segment of
the chain whose last record has length `0` and whose other records do not; the
call on that segment alone, where nothing is linked after the record of length
`0`, returns the same chain, and the chain has at most two chunks per record
read. -/
theorem svn_diff__diff_total (lcs : List svn_diff__lcs_t) (o m : Int) (want_common : Bool)
    (h : ∃ r ∈ lcs, r.length = 0) :
    ∃ out, svn_diff__diff lcs o m want_common = some out ∧
      runs_visited lcs <+: lcs ∧
      (runs_visited lcs).getLast?.map svn_diff__lcs_t.length = some 0 ∧
      (∀ r ∈ (runs_visited lcs).dropLast, r.length ≠ 0) ∧
      svn_diff__diff (runs_visited lcs) o m want_common = some out ∧
      out.length ≤ 2 * (runs_visited lcs).length := by
  obtain ⟨out, hout⟩ := diff_isSome_of_exists_zero want_common lcs o m h
  obtain ⟨h1, h2, h3⟩ := runs_visited_spec lcs h
  exact ⟨out, hout, h1, h2, h3, by rw [diff_runs_visited, hout],
    diff_length_le want_common lcs o m out hout⟩

/-- Witness of C19: a chain with a record of length `0` in second place and a
further run linked after it. -/
theorem svn_diff__diff_total_witness :
    ∃ out, svn_diff__diff [⟨1, 1, 2⟩, ⟨5, 3, 0⟩, ⟨7, 7, 1⟩] 1 1 true = some out ∧
      runs_visited [⟨1, 1, 2⟩, ⟨5, 3, 0⟩, ⟨7, 7, 1⟩] <+: [⟨1, 1, 2⟩, ⟨5, 3, 0⟩, ⟨7, 7, 1⟩] ∧
      (runs_visited [⟨1, 1, 2⟩, ⟨5, 3, 0⟩, ⟨7, 7, 1⟩]).getLast?.map svn_diff__lcs_t.length
        = some 0 ∧
      (∀ r ∈ (runs_visited [⟨1, 1, 2⟩, ⟨5, 3, 0⟩, ⟨7, 7, 1⟩]).dropLast, r.length ≠ 0) ∧
      svn_diff__diff (runs_visited [⟨1, 1, 2⟩, ⟨5, 3, 0⟩, ⟨7, 7, 1⟩]) 1 1 true = some out ∧
      out.length ≤ 2 * (runs_visited [⟨1, 1, 2⟩, ⟨5, 3, 0⟩, ⟨7, 7, 1⟩]).length :=
  svn_diff__diff_total [⟨1, 1, 2⟩, ⟨5, 3, 0⟩, ⟨7, 7, 1⟩] 1 1 true
    ⟨⟨5, 3, 0⟩, by decide, rfl⟩

/-! ## Lemmas on `svn_diff_diff` -/

theorem svn_diff_diff_of_open_error {σ ε τ P : Type} (vtable : svn_diff_fns_t σ ε)
    (lib : libsvn_diff σ ε τ P) (b b1 : σ) (stored : Option Int) (e : ε)
    (hopen : vtable.datasources_open b
      [svn_diff_datasource_e.svn_diff_datasource_original,
       svn_diff_datasource_e.svn_diff_datasource_modified] = (b1, stored, some e)) :
    svn_diff_diff vtable lib b =
      some ⟨some e, [], b1, [pool_id.subpool, pool_id.treepool],
        [event.pool_create pool_id.subpool pool_id.pool,
         event.pool_create pool_id.treepool pool_id.pool,
         event.tree_create pool_id.treepool,
         event.datasources_open [svn_diff_datasource_e.svn_diff_datasource_original,
           svn_diff_datasource_e.svn_diff_datasource_modified]]⟩ := by
  simp only [svn_diff_diff, hopen]

theorem svn_diff_diff_of_original_error {σ ε τ P : Type} (vtable : svn_diff_fns_t σ ε)
    (lib : libsvn_diff σ ε τ P) (b b1 b2 : σ) (stored : Option Int) (t2 : τ) (e : ε)
    (hopen : vtable.datasources_open b
      [svn_diff_datasource_e.svn_diff_datasource_original,
       svn_diff_datasource_e.svn_diff_datasource_modified] = (b1, stored, none))
    (horig : lib.svn_diff__get_tokens lib.svn_diff__tree_create b1
      svn_diff_datasource_e.svn_diff_datasource_original true (stored.getD 0)
        = (t2, b2, Except.error e)) :
    svn_diff_diff vtable lib b =
      some ⟨some e, [], b2, [pool_id.subpool, pool_id.treepool],
        [event.pool_create pool_id.subpool pool_id.pool,
         event.pool_create pool_id.treepool pool_id.pool,
         event.tree_create pool_id.treepool,
         event.datasources_open [svn_diff_datasource_e.svn_diff_datasource_original,
           svn_diff_datasource_e.svn_diff_datasource_modified],
         event.get_tokens svn_diff_datasource_e.svn_diff_datasource_original
           (stored.getD 0) pool_id.subpool]⟩ := by
  simp only [svn_diff_diff, hopen, horig, List.cons_append, List.nil_append]

theorem svn_diff_diff_of_modified_error {σ ε τ P : Type} (vtable : svn_diff_fns_t σ ε)
    (lib : libsvn_diff σ ε τ P) (b b1 b2 b3 : σ) (stored : Option Int) (t2 t3 : τ)
    (pl0 : P) (e : ε)
    (hopen : vtable.datasources_open b
      [svn_diff_datasource_e.svn_diff_datasource_original,
       svn_diff_datasource_e.svn_diff_datasource_modified] = (b1, stored, none))
    (horig : lib.svn_diff__get_tokens lib.svn_diff__tree_create b1
      svn_diff_datasource_e.svn_diff_datasource_original true (stored.getD 0)
        = (t2, b2, Except.ok pl0))
    (hmod : lib.svn_diff__get_tokens t2 b2
      svn_diff_datasource_e.svn_diff_datasource_modified true (stored.getD 0)
        = (t3, b3, Except.error e)) :
    svn_diff_diff vtable lib b =
      some ⟨some e, [], b3, [pool_id.subpool, pool_id.treepool],
        [event.pool_create pool_id.subpool pool_id.pool,
         event.pool_create pool_id.treepool pool_id.pool,
         event.tree_create pool_id.treepool,
         event.datasources_open [svn_diff_datasource_e.svn_diff_datasource_original,
           svn_diff_datasource_e.svn_diff_datasource_modified],
         event.get_tokens svn_diff_datasource_e.svn_diff_datasource_original
           (stored.getD 0) pool_id.subpool,
         event.get_tokens svn_diff_datasource_e.svn_diff_datasource_modified
           (stored.getD 0) pool_id.subpool]⟩ := by
  simp only [svn_diff_diff, hopen, horig, hmod, List.cons_append, List.nil_append]

theorem svn_diff_diff_of_success {σ ε τ P : Type} (vtable : svn_diff_fns_t σ ε)
    (lib : libsvn_diff σ ε τ P) (b b1 b2 b3 : σ) (stored : Option Int) (t2 t3 : τ)
    (pl0 pl1 : P) (out : List svn_diff_t)
    (hopen : vtable.datasources_open b
      [svn_diff_datasource_e.svn_diff_datasource_original,
       svn_diff_datasource_e.svn_diff_datasource_modified] = (b1, stored, none))
    (horig : lib.svn_diff__get_tokens lib.svn_diff__tree_create b1
      svn_diff_datasource_e.svn_diff_datasource_original true (stored.getD 0)
        = (t2, b2, Except.ok pl0))
    (hmod : lib.svn_diff__get_tokens t2 b2
      svn_diff_datasource_e.svn_diff_datasource_modified true (stored.getD 0)
        = (t3, b3, Except.ok pl1))
    (hdiff : svn_diff__diff (lib.svn_diff__lcs pl0 pl1 (stored.getD 0)) 1 1 true = some out) :
    svn_diff_diff vtable lib b =
      some ⟨none, out,
        (match vtable.token_discard_all with
          | some token_discard_all => token_discard_all b3
          | none => b3),
        [],
        [event.pool_create pool_id.subpool pool_id.pool,
         event.pool_create pool_id.treepool pool_id.pool,
         event.tree_create pool_id.treepool,
         event.datasources_open [svn_diff_datasource_e.svn_diff_datasource_original,
           svn_diff_datasource_e.svn_diff_datasource_modified],
         event.get_tokens svn_diff_datasource_e.svn_diff_datasource_original
           (stored.getD 0) pool_id.subpool,
         event.get_tokens svn_diff_datasource_e.svn_diff_datasource_modified
           (stored.getD 0) pool_id.subpool] ++
        (if vtable.token_discard_all.isSome = true then [event.token_discard_all] else []) ++
        [event.pool_destroy pool_id.treepool,
         event.lcs (stored.getD 0) pool_id.subpool,
         event.diff 1 1 true pool_id.pool,
         event.pool_destroy pool_id.subpool]⟩ := by
  simp only [svn_diff_diff, hopen, horig, hmod, hdiff, List.cons_append, List.nil_append]
  cases vtable.token_discard_all <;> simp [List.erase]

theorem svn_diff_diff_cases {σ ε τ P : Type} (vtable : svn_diff_fns_t σ ε)
    (lib : libsvn_diff σ ε τ P) (b : σ)
    (hlcs : ∀ (a c : P) (p : Int), EndsInTerminator (lib.svn_diff__lcs a c p)) :
    ∃ r, svn_diff_diff vtable lib b = some r ∧
      ((∃ e, r.err = some e ∧ r.diff = [] ∧
          r.live_pools = [pool_id.subpool, pool_id.treepool] ∧
          ∃ d, r.trace =
            [event.pool_create pool_id.subpool pool_id.pool,
             event.pool_create pool_id.treepool pool_id.pool,
             event.tree_create pool_id.treepool,
             event.datasources_open [svn_diff_datasource_e.svn_diff_datasource_original,
               svn_diff_datasource_e.svn_diff_datasource_modified]] ++ d ∧
            (d = [] ∨
             d = [event.get_tokens svn_diff_datasource_e.svn_diff_datasource_original
               (((vtable.datasources_open b
                  [svn_diff_datasource_e.svn_diff_datasource_original,
                   svn_diff_datasource_e.svn_diff_datasource_modified]).2.1).getD 0)
               pool_id.subpool] ∨
             d = [event.get_tokens svn_diff_datasource_e.svn_diff_datasource_original
               (((vtable.datasources_open b
                  [svn_diff_datasource_e.svn_diff_datasource_original,
                   svn_diff_datasource_e.svn_diff_datasource_modified]).2.1).getD 0)
               pool_id.subpool,
              event.get_tokens svn_diff_datasource_e.svn_diff_datasource_modified
               (((vtable.datasources_open b
                  [svn_diff_datasource_e.svn_diff_datasource_original,
                   svn_diff_datasource_e.svn_diff_datasource_modified]).2.1).getD 0)
               pool_id.subpool])) ∨
       (r.err = none ∧ r.live_pools = [] ∧
          ∃ d, r.trace =
            [event.pool_create pool_id.subpool pool_id.pool,
             event.pool_create pool_id.treepool pool_id.pool,
             event.tree_create pool_id.treepool,
             event.datasources_open [svn_diff_datasource_e.svn_diff_datasource_original,
               svn_diff_datasource_e.svn_diff_datasource_modified],
             event.get_tokens svn_diff_datasource_e.svn_diff_datasource_original
               (((vtable.datasources_open b
                  [svn_diff_datasource_e.svn_diff_datasource_original,
                   svn_diff_datasource_e.svn_diff_datasource_modified]).2.1).getD 0)
               pool_id.subpool,
             event.get_tokens svn_diff_datasource_e.svn_diff_datasource_modified
               (((vtable.datasources_open b
                  [svn_diff_datasource_e.svn_diff_datasource_original,
                   svn_diff_datasource_e.svn_diff_datasource_modified]).2.1).getD 0)
               pool_id.subpool] ++ d ++
            [event.pool_destroy pool_id.treepool,
             event.lcs
               (((vtable.datasources_open b
                  [svn_diff_datasource_e.svn_diff_datasource_original,
                   svn_diff_datasource_e.svn_diff_datasource_modified]).2.1).getD 0)
               pool_id.subpool,
             event.diff 1 1 true pool_id.pool,
             event.pool_destroy pool_id.subpool] ∧
            (d = [] ∨ d = [event.token_discard_all]))) := by
  rcases hopen : vtable.datasources_open b
      [svn_diff_datasource_e.svn_diff_datasource_original,
       svn_diff_datasource_e.svn_diff_datasource_modified] with ⟨b1, stored, oe⟩
  cases oe with
  | some e =>
    exact ⟨_, svn_diff_diff_of_open_error vtable lib b b1 stored e hopen,
      Or.inl ⟨e, rfl, rfl, rfl, [], rfl, Or.inl rfl⟩⟩
  | none =>
    rcases horig : lib.svn_diff__get_tokens lib.svn_diff__tree_create b1
        svn_diff_datasource_e.svn_diff_datasource_original true (stored.getD 0)
      with ⟨t2, b2, r0⟩
    cases r0 with
    | error e =>
      exact ⟨_, svn_diff_diff_of_original_error vtable lib b b1 b2 stored t2 e hopen horig,
        Or.inl ⟨e, rfl, rfl, rfl, _, rfl, Or.inr (Or.inl rfl)⟩⟩
    | ok pl0 =>
      rcases hmod : lib.svn_diff__get_tokens t2 b2
          svn_diff_datasource_e.svn_diff_datasource_modified true (stored.getD 0)
        with ⟨t3, b3, r1⟩
      cases r1 with
      | error e =>
        exact ⟨_, svn_diff_diff_of_modified_error vtable lib b b1 b2 b3 stored t2 t3 pl0 e
            hopen horig hmod,
          Or.inl ⟨e, rfl, rfl, rfl, _, rfl, Or.inr (Or.inr rfl)⟩⟩
      | ok pl1 =>
        obtain ⟨out, hout⟩ := diff_isSome_of_endsInTerminator true
          (lib.svn_diff__lcs pl0 pl1 (stored.getD 0)) 1 1 (hlcs _ _ _)
        refine ⟨_, svn_diff_diff_of_success vtable lib b b1 b2 b3 stored t2 t3 pl0 pl1 out
            hopen horig hmod hout, Or.inr ⟨rfl, rfl, _, rfl, ?_⟩⟩
        cases vtable.token_discard_all <;> simp

/-! ## Properties of `svn_diff_diff` -/

/-- C13 (error propagation).  If `datasources_open`, the ingestion of the
original source or the ingestion of the modified source returns an error,
`svn_diff_diff` returns that error, leaves `*diff` at `NULL` (the empty chain)
and its trace ends with the failing call: no later ingestion, no
`token_discard_all`, no LCS, no assembly.  If none of them fails (and the LCS
chain ends in its terminator) it returns no error and `*diff` is the chain
`svn_diff__diff` builds from the LCS chain. -/
theorem svn_diff_diff_error_propagation {σ ε τ P : Type} (vtable : svn_diff_fns_t σ ε)
    (lib : libsvn_diff σ ε τ P) (b : σ) :
    (∀ (b1 : σ) (stored : Option Int) (e : ε),
      vtable.datasources_open b [svn_diff_datasource_e.svn_diff_datasource_original,
        svn_diff_datasource_e.svn_diff_datasource_modified] = (b1, stored, some e) →
      ∃ r, svn_diff_diff vtable lib b = some r ∧ r.err = some e ∧ r.diff = [] ∧
        r.trace = [event.pool_create pool_id.subpool pool_id.pool,
          event.pool_create pool_id.treepool pool_id.pool,
          event.tree_create pool_id.treepool,
          event.datasources_open [svn_diff_datasource_e.svn_diff_datasource_original,
        svn_diff_datasource_e.svn_diff_datasource_modified]]) ∧
    (∀ (b1 b2 : σ) (stored : Option Int) (t2 : τ) (e : ε),
      vtable.datasources_open b [svn_diff_datasource_e.svn_diff_datasource_original,
        svn_diff_datasource_e.svn_diff_datasource_modified] = (b1, stored, none) →
      lib.svn_diff__get_tokens lib.svn_diff__tree_create b1
        svn_diff_datasource_e.svn_diff_datasource_original true (stored.getD 0)
          = (t2, b2, Except.error e) →
      ∃ r, svn_diff_diff vtable lib b = some r ∧ r.err = some e ∧ r.diff = [] ∧
        r.trace = [event.pool_create pool_id.subpool pool_id.pool,
          event.pool_create pool_id.treepool pool_id.pool,
          event.tree_create pool_id.treepool,
          event.datasources_open [svn_diff_datasource_e.svn_diff_datasource_original,
        svn_diff_datasource_e.svn_diff_datasource_modified],
          event.get_tokens svn_diff_datasource_e.svn_diff_datasource_original
            (stored.getD 0) pool_id.subpool]) ∧
    (∀ (b1 b2 b3 : σ) (stored : Option Int) (t2 t3 : τ) (pl0 : P) (e : ε),
      vtable.datasources_open b [svn_diff_datasource_e.svn_diff_datasource_original,
        svn_diff_datasource_e.svn_diff_datasource_modified] = (b1, stored, none) →
      lib.svn_diff__get_tokens lib.svn_diff__tree_create b1
        svn_diff_datasource_e.svn_diff_datasource_original true (stored.getD 0)
          = (t2, b2, Except.ok pl0) →
      lib.svn_diff__get_tokens t2 b2
        svn_diff_datasource_e.svn_diff_datasource_modified true (stored.getD 0)
          = (t3, b3, Except.error e) →
      ∃ r, svn_diff_diff vtable lib b = some r ∧ r.err = some e ∧ r.diff = [] ∧
        r.trace = [event.pool_create pool_id.subpool pool_id.pool,
          event.pool_create pool_id.treepool pool_id.pool,
          event.tree_create pool_id.treepool,
          event.datasources_open [svn_diff_datasource_e.svn_diff_datasource_original,
        svn_diff_datasource_e.svn_diff_datasource_modified],
          event.get_tokens svn_diff_datasource_e.svn_diff_datasource_original
            (stored.getD 0) pool_id.subpool,
          event.get_tokens svn_diff_datasource_e.svn_diff_datasource_modified
            (stored.getD 0) pool_id.subpool]) ∧
    (∀ (b1 b2 b3 : σ) (stored : Option Int) (t2 t3 : τ) (pl0 pl1 : P),
      vtable.datasources_open b [svn_diff_datasource_e.svn_diff_datasource_original,
        svn_diff_datasource_e.svn_diff_datasource_modified] = (b1, stored, none) →
      lib.svn_diff__get_tokens lib.svn_diff__tree_create b1
        svn_diff_datasource_e.svn_diff_datasource_original true (stored.getD 0)
          = (t2, b2, Except.ok pl0) →
      lib.svn_diff__get_tokens t2 b2
        svn_diff_datasource_e.svn_diff_datasource_modified true (stored.getD 0)
          = (t3, b3, Except.ok pl1) →
      EndsInTerminator (lib.svn_diff__lcs pl0 pl1 (stored.getD 0)) →
      ∃ r out, svn_diff_diff vtable lib b = some r ∧ r.err = none ∧
        svn_diff__diff (lib.svn_diff__lcs pl0 pl1 (stored.getD 0)) 1 1 true = some out ∧
        r.diff = out) := by
  refine ⟨?_, ?_, ?_, ?_⟩
  · intro b1 stored e hopen
    exact ⟨_, svn_diff_diff_of_open_error vtable lib b b1 stored e hopen, rfl, rfl, rfl⟩
  · intro b1 b2 stored t2 e hopen horig
    exact ⟨_, svn_diff_diff_of_original_error vtable lib b b1 b2 stored t2 e hopen horig,
      rfl, rfl, rfl⟩
  · intro b1 b2 b3 stored t2 t3 pl0 e hopen horig hmod
    exact ⟨_, svn_diff_diff_of_modified_error vtable lib b b1 b2 b3 stored t2 t3 pl0 e
      hopen horig hmod, rfl, rfl, rfl⟩
  · intro b1 b2 b3 stored t2 t3 pl0 pl1 hopen horig hmod hterm
    obtain ⟨out, hout⟩ := diff_isSome_of_endsInTerminator true
      (lib.svn_diff__lcs pl0 pl1 (stored.getD 0)) 1 1 hterm
    exact ⟨_, out, svn_diff_diff_of_success vtable lib b b1 b2 b3 stored t2 t3 pl0 pl1 out
      hopen horig hmod hout, rfl, hout, rfl⟩

/-- Witness of C13: the failing adapter (error `7` from `datasources_open`) and
the succeeding adapter, on the fixed internals. -/
theorem svn_diff_diff_error_propagation_witness :
    (∃ r, svn_diff_diff adapter_failing lib_fixed () = some r ∧ r.err = some 7 ∧
      r.diff = [] ∧
      r.trace = [event.pool_create pool_id.subpool pool_id.pool,
        event.pool_create pool_id.treepool pool_id.pool,
        event.tree_create pool_id.treepool,
        event.datasources_open [svn_diff_datasource_e.svn_diff_datasource_original,
        svn_diff_datasource_e.svn_diff_datasource_modified]]) ∧
    (∃ r out, svn_diff_diff adapter_ok lib_fixed () = some r ∧ r.err = none ∧
      svn_diff__diff (lib_fixed.svn_diff__lcs () () ((some (2 : Int)).getD 0)) 1 1 true
        = some out ∧
      r.diff = out) :=
  ⟨(svn_diff_diff_error_propagation adapter_failing lib_fixed ()).1 () none 7 rfl,
   (svn_diff_diff_error_propagation adapter_ok lib_fixed ()).2.2.2 () () () (some 2) () () () ()
     rfl rfl rfl (by decide)⟩

/-- C14 as stated fails on the error returns: with the adapter whose
`datasources_open` returns an error, `svn_diff_diff` returns while both the
tree arena and the work arena are still alive. -/
theorem svn_diff_diff_arena_release_counterexample :
    ¬ (∀ r, svn_diff_diff adapter_failing lib_fixed () = some r →
        pool_id.treepool ∉ r.live_pools ∧ pool_id.subpool ∉ r.live_pools) := by
  intro h
  have h2 := h _ (svn_diff_diff_of_open_error adapter_failing lib_fixed () () none 7 rfl)
  exact h2.1 (by decide)

/-- C14, amended (arena release).  With pool liveness as explicit state, and an
LCS engine whose chains end in their terminator, `svn_diff_diff` always
returns, having created the work arena and the tree arena as sub-pools of the
caller's pool.  On a return without error it has itself destroyed both, and
none of its pools is alive.  On a return with an error it has destroyed
neither: the trace has no `svn_pool_destroy` and both arenas are still alive. -/
theorem svn_diff_diff_arena_release {σ ε τ P : Type} (vtable : svn_diff_fns_t σ ε)
    (lib : libsvn_diff σ ε τ P) (b : σ)
    (hlcs : ∀ (a c : P) (p : Int), EndsInTerminator (lib.svn_diff__lcs a c p)) :
    ∃ r, svn_diff_diff vtable lib b = some r ∧
      event.pool_create pool_id.subpool pool_id.pool ∈ r.trace ∧
      event.pool_create pool_id.treepool pool_id.pool ∈ r.trace ∧
      (r.err = none →
        r.live_pools = [] ∧
        event.pool_destroy pool_id.treepool ∈ r.trace ∧
        event.pool_destroy pool_id.subpool ∈ r.trace) ∧
      (r.err ≠ none →
        r.live_pools = [pool_id.subpool, pool_id.treepool] ∧
        ∀ p, event.pool_destroy p ∉ r.trace) := by
  obtain ⟨r, hr, hcase⟩ := svn_diff_diff_cases vtable lib b hlcs
  refine ⟨r, hr, ?_⟩
  rcases hcase with ⟨e, herr, _, hlive, d, htrace, hd⟩ | ⟨herr, hlive, d, htrace, hd⟩
  · rw [htrace, herr, hlive]
    rcases hd with rfl | rfl | rfl <;> simp
  · rw [htrace, herr, hlive]
    rcases hd with rfl | rfl <;> simp

/-- Witness of the amended C14: the succeeding adapter on the fixed
internals. -/
theorem svn_diff_diff_arena_release_witness :
    ∃ r, svn_diff_diff adapter_ok lib_fixed () = some r ∧
      event.pool_create pool_id.subpool pool_id.pool ∈ r.trace ∧
      event.pool_create pool_id.treepool pool_id.pool ∈ r.trace ∧
      (r.err = none →
        r.live_pools = [] ∧
        event.pool_destroy pool_id.treepool ∈ r.trace ∧
        event.pool_destroy pool_id.subpool ∈ r.trace) ∧
      (r.err ≠ none →
        r.live_pools = [pool_id.subpool, pool_id.treepool] ∧
        ∀ p, event.pool_destroy p ∉ r.trace) :=
  svn_diff_diff_arena_release adapter_ok lib_fixed ()
    (fun _ _ _ => (by decide : EndsInTerminator [⟨1, 1, 3⟩, ⟨4, 5, 0⟩]))

/-- C16 (the entry point asks for common chunks from cursors `(1, 1)`).  On a
run without error (with an LCS chain `L` that ends in its terminator) the chain
stored in `*diff` is the chain of `svn_diff__diff(L, 1, 1, TRUE)`, where `L` is
what `svn_diff__lcs` returns for the two position lists and the prefix count;
the only call of `svn_diff__diff` in the trace has cursors `(1, 1)` and
`want_common = TRUE`; and `svn_diff_diff` has no flag to change that: when the
returned chain has a chunk of type `common`, it is not the chain of
`svn_diff__diff(L, 1, 1, FALSE)`. -/
theorem svn_diff_diff_wants_common {σ ε τ P : Type} (vtable : svn_diff_fns_t σ ε)
    (lib : libsvn_diff σ ε τ P) (b b1 b2 b3 : σ) (stored : Option Int) (t2 t3 : τ)
    (pl0 pl1 : P)
    (hopen : vtable.datasources_open b [svn_diff_datasource_e.svn_diff_datasource_original,
        svn_diff_datasource_e.svn_diff_datasource_modified] = (b1, stored, none))
    (horig : lib.svn_diff__get_tokens lib.svn_diff__tree_create b1
      svn_diff_datasource_e.svn_diff_datasource_original true (stored.getD 0)
        = (t2, b2, Except.ok pl0))
    (hmod : lib.svn_diff__get_tokens t2 b2
      svn_diff_datasource_e.svn_diff_datasource_modified true (stored.getD 0)
        = (t3, b3, Except.ok pl1))
    (hterm : EndsInTerminator (lib.svn_diff__lcs pl0 pl1 (stored.getD 0))) :
    ∃ r out, svn_diff_diff vtable lib b = some r ∧ r.err = none ∧
      svn_diff__diff (lib.svn_diff__lcs pl0 pl1 (stored.getD 0)) 1 1 true = some out ∧
      r.diff = out ∧
      event.diff 1 1 true pool_id.pool ∈ r.trace ∧
      (∀ (o m : Int) (wc : Bool) (p : pool_id), event.diff o m wc p ∈ r.trace →
        o = 1 ∧ m = 1 ∧ wc = true) ∧
      ((∃ c ∈ r.diff, c.type = svn_diff__type_e.svn_diff__type_common) →
        svn_diff__diff (lib.svn_diff__lcs pl0 pl1 (stored.getD 0)) 1 1 false ≠ some r.diff) := by
  obtain ⟨out, hout⟩ := diff_isSome_of_endsInTerminator true
    (lib.svn_diff__lcs pl0 pl1 (stored.getD 0)) 1 1 hterm
  refine ⟨_, out, svn_diff_diff_of_success vtable lib b b1 b2 b3 stored t2 t3 pl0 pl1 out
    hopen horig hmod hout, rfl, hout, rfl, ?_, ?_, ?_⟩
  · cases vtable.token_discard_all <;> simp
  · intro o m wc p hmem
    cases hd : vtable.token_discard_all <;> simp [hd] at hmem <;> exact ⟨hmem.1, hmem.2.1, hmem.2.2.1⟩
  · rintro ⟨c, hc, hty⟩ hfalse
    rw [filter_only_from, hout] at hfalse
    simp only [Option.map_some', Option.some.injEq] at hfalse
    have hall := (List.filter_eq_self.1 hfalse) c hc
    simp only [decide_eq_true_eq] at hall
    rw [hty] at hall
    cases hall

/-- Witness of C16: the succeeding adapter on the fixed internals. -/
theorem svn_diff_diff_wants_common_witness :
    ∃ r out, svn_diff_diff adapter_ok lib_fixed () = some r ∧ r.err = none ∧
      svn_diff__diff (lib_fixed.svn_diff__lcs () () ((some (2 : Int)).getD 0)) 1 1 true
        = some out ∧
      r.diff = out ∧
      event.diff 1 1 true pool_id.pool ∈ r.trace ∧
      (∀ (o m : Int) (wc : Bool) (p : pool_id), event.diff o m wc p ∈ r.trace →
        o = 1 ∧ m = 1 ∧ wc = true) ∧
      ((∃ c ∈ r.diff, c.type = svn_diff__type_e.svn_diff__type_common) →
        svn_diff__diff (lib_fixed.svn_diff__lcs () () ((some (2 : Int)).getD 0)) 1 1 false
          ≠ some r.diff) :=
  svn_diff_diff_wants_common adapter_ok lib_fixed () () () () (some 2) () () () ()
    rfl rfl rfl (by decide)

/-- C17 (the prefix count is forwarded unchanged).  Let `p` be the value
`datasources_open` stored through the `prefix_lines` pointer, or `0` if it
stored nothing.  With an LCS engine whose chains end in their terminator,
`svn_diff_diff` returns, and in its trace: `datasources_open` is called once,
with the datasources `(original, modified)` in that order; every call of
`svn_diff__get_tokens` and of `svn_diff__lcs` carries the prefix count `p`; and
on a run without error the three calls (original ingestion, modified
ingestion, LCS) are all there with `p`. -/
theorem svn_diff_diff_prefix_forwarded {σ ε τ P : Type} (vtable : svn_diff_fns_t σ ε)
    (lib : libsvn_diff σ ε τ P) (b : σ)
    (hlcs : ∀ (a c : P) (p : Int), EndsInTerminator (lib.svn_diff__lcs a c p)) :
    ∃ r, svn_diff_diff vtable lib b = some r ∧
      r.trace.count (event.datasources_open [svn_diff_datasource_e.svn_diff_datasource_original,
        svn_diff_datasource_e.svn_diff_datasource_modified]) = 1 ∧
      (∀ d, event.datasources_open d ∈ r.trace → d = [svn_diff_datasource_e.svn_diff_datasource_original,
        svn_diff_datasource_e.svn_diff_datasource_modified]) ∧
      (∀ ds q pl, event.get_tokens ds q pl ∈ r.trace →
        q = ((vtable.datasources_open b [svn_diff_datasource_e.svn_diff_datasource_original,
        svn_diff_datasource_e.svn_diff_datasource_modified]).2.1).getD 0) ∧
      (∀ q pl, event.lcs q pl ∈ r.trace →
        q = ((vtable.datasources_open b [svn_diff_datasource_e.svn_diff_datasource_original,
        svn_diff_datasource_e.svn_diff_datasource_modified]).2.1).getD 0) ∧
      (r.err = none →
        event.get_tokens svn_diff_datasource_e.svn_diff_datasource_original
          (((vtable.datasources_open b [svn_diff_datasource_e.svn_diff_datasource_original,
        svn_diff_datasource_e.svn_diff_datasource_modified]).2.1).getD 0) pool_id.subpool ∈ r.trace ∧
        event.get_tokens svn_diff_datasource_e.svn_diff_datasource_modified
          (((vtable.datasources_open b [svn_diff_datasource_e.svn_diff_datasource_original,
        svn_diff_datasource_e.svn_diff_datasource_modified]).2.1).getD 0) pool_id.subpool ∈ r.trace ∧
        event.lcs (((vtable.datasources_open b [svn_diff_datasource_e.svn_diff_datasource_original,
        svn_diff_datasource_e.svn_diff_datasource_modified]).2.1).getD 0) pool_id.subpool ∈ r.trace) := by
  obtain ⟨r, hr, hcase⟩ := svn_diff_diff_cases vtable lib b hlcs
  refine ⟨r, hr, ?_⟩
  rcases hcase with ⟨e, herr, _, hlive, d, htrace, hd⟩ | ⟨herr, hlive, d, htrace, hd⟩
  · rw [htrace, herr]
    rcases hd with rfl | rfl | rfl <;> simp [List.count_cons] <;> (intro ds q pl; tauto)
  · rw [htrace, herr]
    rcases hd with rfl | rfl <;> simp [List.count_cons] <;> (intro ds q pl; tauto)

/-- Witness of C17: the succeeding adapter, which stores the prefix count
`2`, on the fixed internals. -/
theorem svn_diff_diff_prefix_forwarded_witness :
    ∃ r, svn_diff_diff adapter_ok lib_fixed () = some r ∧
      r.trace.count (event.datasources_open [svn_diff_datasource_e.svn_diff_datasource_original,
        svn_diff_datasource_e.svn_diff_datasource_modified]) = 1 ∧
      (∀ d, event.datasources_open d ∈ r.trace → d = [svn_diff_datasource_e.svn_diff_datasource_original,
        svn_diff_datasource_e.svn_diff_datasource_modified]) ∧
      (∀ ds q pl, event.get_tokens ds q pl ∈ r.trace →
        q = ((adapter_ok.datasources_open () [svn_diff_datasource_e.svn_diff_datasource_original,
        svn_diff_datasource_e.svn_diff_datasource_modified]).2.1).getD 0) ∧
      (∀ q pl, event.lcs q pl ∈ r.trace →
        q = ((adapter_ok.datasources_open () [svn_diff_datasource_e.svn_diff_datasource_original,
        svn_diff_datasource_e.svn_diff_datasource_modified]).2.1).getD 0) ∧
      (r.err = none →
        event.get_tokens svn_diff_datasource_e.svn_diff_datasource_original
          (((adapter_ok.datasources_open () [svn_diff_datasource_e.svn_diff_datasource_original,
        svn_diff_datasource_e.svn_diff_datasource_modified]).2.1).getD 0) pool_id.subpool ∈ r.trace ∧
        event.get_tokens svn_diff_datasource_e.svn_diff_datasource_modified
          (((adapter_ok.datasources_open () [svn_diff_datasource_e.svn_diff_datasource_original,
        svn_diff_datasource_e.svn_diff_datasource_modified]).2.1).getD 0) pool_id.subpool ∈ r.trace ∧
        event.lcs (((adapter_ok.datasources_open () [svn_diff_datasource_e.svn_diff_datasource_original,
        svn_diff_datasource_e.svn_diff_datasource_modified]).2.1).getD 0) pool_id.subpool
          ∈ r.trace) :=
  svn_diff_diff_prefix_forwarded adapter_ok lib_fixed ()
    (fun _ _ _ => (by decide : EndsInTerminator [⟨1, 1, 3⟩, ⟨4, 5, 0⟩]))

/-- C18 (step order).  On a run without error (with an LCS chain that ends in
its terminator) the trace of `svn_diff_diff` is, in this order: creation of
the work arena and of the tree arena, creation of the tree,
`datasources_open`, ingestion of the original source, ingestion of the
modified source, `token_discard_all` (once when the adapter provides it, not at
all when the slot is `NULL`), destruction of the tree arena, `svn_diff__lcs`,
`svn_diff__diff`, destruction of the work arena. -/
theorem svn_diff_diff_step_order {σ ε τ P : Type} (vtable : svn_diff_fns_t σ ε)
    (lib : libsvn_diff σ ε τ P) (b b1 b2 b3 : σ) (stored : Option Int) (t2 t3 : τ)
    (pl0 pl1 : P)
    (hopen : vtable.datasources_open b [svn_diff_datasource_e.svn_diff_datasource_original,
        svn_diff_datasource_e.svn_diff_datasource_modified] = (b1, stored, none))
    (horig : lib.svn_diff__get_tokens lib.svn_diff__tree_create b1
      svn_diff_datasource_e.svn_diff_datasource_original true (stored.getD 0)
        = (t2, b2, Except.ok pl0))
    (hmod : lib.svn_diff__get_tokens t2 b2
      svn_diff_datasource_e.svn_diff_datasource_modified true (stored.getD 0)
        = (t3, b3, Except.ok pl1))
    (hterm : EndsInTerminator (lib.svn_diff__lcs pl0 pl1 (stored.getD 0))) :
    ∃ r, svn_diff_diff vtable lib b = some r ∧ r.err = none ∧
      (vtable.token_discard_all ≠ none →
        r.trace =
          [event.pool_create pool_id.subpool pool_id.pool,
           event.pool_create pool_id.treepool pool_id.pool,
           event.tree_create pool_id.treepool,
           event.datasources_open [svn_diff_datasource_e.svn_diff_datasource_original,
        svn_diff_datasource_e.svn_diff_datasource_modified],
           event.get_tokens svn_diff_datasource_e.svn_diff_datasource_original
             (stored.getD 0) pool_id.subpool,
           event.get_tokens svn_diff_datasource_e.svn_diff_datasource_modified
             (stored.getD 0) pool_id.subpool,
           event.token_discard_all,
           event.pool_destroy pool_id.treepool,
           event.lcs (stored.getD 0) pool_id.subpool,
           event.diff 1 1 true pool_id.pool,
           event.pool_destroy pool_id.subpool]) ∧
      (vtable.token_discard_all = none →
        r.trace =
          [event.pool_create pool_id.subpool pool_id.pool,
           event.pool_create pool_id.treepool pool_id.pool,
           event.tree_create pool_id.treepool,
           event.datasources_open [svn_diff_datasource_e.svn_diff_datasource_original,
        svn_diff_datasource_e.svn_diff_datasource_modified],
           event.get_tokens svn_diff_datasource_e.svn_diff_datasource_original
             (stored.getD 0) pool_id.subpool,
           event.get_tokens svn_diff_datasource_e.svn_diff_datasource_modified
             (stored.getD 0) pool_id.subpool,
           event.pool_destroy pool_id.treepool,
           event.lcs (stored.getD 0) pool_id.subpool,
           event.diff 1 1 true pool_id.pool,
           event.pool_destroy pool_id.subpool]) := by
  obtain ⟨out, hout⟩ := diff_isSome_of_endsInTerminator true
    (lib.svn_diff__lcs pl0 pl1 (stored.getD 0)) 1 1 hterm
  refine ⟨_, svn_diff_diff_of_success vtable lib b b1 b2 b3 stored t2 t3 pl0 pl1 out
    hopen horig hmod hout, rfl, ?_, ?_⟩
  · intro hsome
    cases hd : vtable.token_discard_all with
    | none => exact absurd hd hsome
    | some f => simp
  · intro hnone
    simp [hnone]

/-- Witness of C18: the succeeding adapter, whose `token_discard_all` slot is
filled, on the fixed internals. -/
theorem svn_diff_diff_step_order_witness :
    ∃ r, svn_diff_diff adapter_ok lib_fixed () = some r ∧ r.err = none ∧
      (adapter_ok.token_discard_all ≠ none →
        r.trace =
          [event.pool_create pool_id.subpool pool_id.pool,
           event.pool_create pool_id.treepool pool_id.pool,
           event.tree_create pool_id.treepool,
           event.datasources_open [svn_diff_datasource_e.svn_diff_datasource_original,
        svn_diff_datasource_e.svn_diff_datasource_modified],
           event.get_tokens svn_diff_datasource_e.svn_diff_datasource_original
             ((some (2 : Int)).getD 0) pool_id.subpool,
           event.get_tokens svn_diff_datasource_e.svn_diff_datasource_modified
             ((some (2 : Int)).getD 0) pool_id.subpool,
           event.token_discard_all,
           event.pool_destroy pool_id.treepool,
           event.lcs ((some (2 : Int)).getD 0) pool_id.subpool,
           event.diff 1 1 true pool_id.pool,
           event.pool_destroy pool_id.subpool]) ∧
      (adapter_ok.token_discard_all = none →
        r.trace =
          [event.pool_create pool_id.subpool pool_id.pool,
           event.pool_create pool_id.treepool pool_id.pool,
           event.tree_create pool_id.treepool,
           event.datasources_open [svn_diff_datasource_e.svn_diff_datasource_original,
        svn_diff_datasource_e.svn_diff_datasource_modified],
           event.get_tokens svn_diff_datasource_e.svn_diff_datasource_original
             ((some (2 : Int)).getD 0) pool_id.subpool,
           event.get_tokens svn_diff_datasource_e.svn_diff_datasource_modified
             ((some (2 : Int)).getD 0) pool_id.subpool,
           event.pool_destroy pool_id.treepool,
           event.lcs ((some (2 : Int)).getD 0) pool_id.subpool,
           event.diff 1 1 true pool_id.pool,
           event.pool_destroy pool_id.subpool]) :=
  svn_diff_diff_step_order adapter_ok lib_fixed () () () () (some 2) () () () ()
    rfl rfl rfl (by decide)

/-! ## Counting the chunks -/

theorem gap_chunks_counts (r : svn_diff__lcs_t) (o m : Int) :
    (gap_chunks r o m).filter
        (fun c => decide (c.type = svn_diff__type_e.svn_diff__type_common)) = [] ∧
    ((gap_chunks r o m).filter
        (fun c => decide (c.type = svn_diff__type_e.svn_diff__type_diff_modified))).length ≤ 1 ∧
    (gap_chunks r o m).length ≤ 1 := by
  unfold gap_chunks
  split <;> simp [modified_chunk]

theorem counts_from :
    ∀ (pre : List svn_diff__lcs_t) (o m : Int), (∀ p ∈ pre, p.length ≠ 0) →
      ∀ (t : svn_diff__lcs_t) (rest : List svn_diff__lcs_t) (out : List svn_diff_t),
        t.length = 0 → svn_diff__diff (pre ++ t :: rest) o m true = some out →
        out.filter (fun c => decide (c.type = svn_diff__type_e.svn_diff__type_common))
          = pre.map (fun r => common_chunk r r.position0_offset r.position1_offset) ∧
        (out.filter
          (fun c => decide (c.type = svn_diff__type_e.svn_diff__type_diff_modified))).length
          ≤ pre.length + 1 ∧
        out.length ≤ 2 * pre.length + 1 := by
  intro pre
  induction pre with
  | nil =>
    intro o m _ t rest out ht hout
    rw [List.nil_append, diff_cons_zero t rest o m true ht] at hout
    cases hout
    obtain ⟨h1, h2, h3⟩ := gap_chunks_counts t o m
    exact ⟨by rw [h1]; rfl, by simpa using h2, by simpa using h3⟩
  | cons r pre ih =>
    intro o m hne t rest out ht hout
    have hr : r.length ≠ 0 := hne r (List.mem_cons_self _ _)
    rw [List.cons_append, diff_cons_ne r _ o m true hr] at hout
    cases hrec : svn_diff__diff (pre ++ t :: rest) (r.position0_offset + r.length)
        (r.position1_offset + r.length) true with
    | none => rw [hrec] at hout; cases hout
    | some out2 =>
      rw [hrec] at hout
      cases hout
      obtain ⟨h1, h2, h3⟩ := ih _ _ (fun q hq => hne q (List.mem_cons_of_mem _ hq))
        t rest out2 ht hrec
      obtain ⟨g1, g2, g3⟩ := gap_chunks_counts r o m
      refine ⟨?_, ?_, ?_⟩
      · simp only [List.filter_append, g1, h1, List.nil_append, List.map_cons]
        simp [common_chunks, common_chunk]
      · simp only [List.filter_append, List.length_append, List.length_cons]
        have hc : ((common_chunks r true).filter
            (fun c => decide (c.type = svn_diff__type_e.svn_diff__type_diff_modified))).length
            = 0 := by
          simp [common_chunks, common_chunk]
        omega
      · simp only [List.length_append, List.length_cons]
        have hc : (common_chunks r true).length = 1 := by simp [common_chunks]
        omega

/-- C21 (one common chunk per run, no merging).  Let a chain have the runs
`pre`, all of a length other than `0`, before its first record `t` of length
`0`, and write `k` for the number of those runs.  For all cursors,
`svn_diff__diff(lcs, o, m, TRUE)` returns a chain whose chunks of type `common`
are, in run order, exactly the chunks `common(a - 1, len, b - 1, len)` of the
runs `(a, b, len)` of `pre` (so there are `k` of them); it has at most `k + 1`
chunks of type `modified` and at most `2k + 1` chunks in all.  If two
consecutive runs `r1`, `r2` are contiguous on both sides (the offsets of `r2`
are those of `r1` plus the length of `r1`), their two `common` chunks stand
next to each other in the output, unmerged, after the `common` chunks of the
runs before `r1`. -/
theorem svn_diff__diff_one_common_per_run (pre rest : List svn_diff__lcs_t)
    (t : svn_diff__lcs_t) (o m : Int)
    (hpre : ∀ p ∈ pre, p.length ≠ 0) (ht : t.length = 0) :
    ∃ out, svn_diff__diff (pre ++ t :: rest) o m true = some out ∧
      out.filter (fun c => decide (c.type = svn_diff__type_e.svn_diff__type_common))
        = pre.map (fun r => ⟨svn_diff__type_e.svn_diff__type_common,
            r.position0_offset - 1, r.length, r.position1_offset - 1, r.length, 0, 0⟩) ∧
      (out.filter
        (fun c => decide (c.type = svn_diff__type_e.svn_diff__type_common))).length
        = pre.length ∧
      (out.filter
        (fun c => decide (c.type = svn_diff__type_e.svn_diff__type_diff_modified))).length
        ≤ pre.length + 1 ∧
      out.length ≤ 2 * pre.length + 1 ∧
      (∀ (a b : List svn_diff__lcs_t) (r1 r2 : svn_diff__lcs_t),
        pre = a ++ r1 :: r2 :: b →
        r2.position0_offset = r1.position0_offset + r1.length →
        r2.position1_offset = r1.position1_offset + r1.length →
        ∃ out1 out2,
          out = out1 ++
            (⟨svn_diff__type_e.svn_diff__type_common,
                r1.position0_offset - 1, r1.length, r1.position1_offset - 1, r1.length, 0, 0⟩ ::
             ⟨svn_diff__type_e.svn_diff__type_common,
                r2.position0_offset - 1, r2.length, r2.position1_offset - 1, r2.length, 0, 0⟩ ::
             out2) ∧
          out1.filter (fun c => decide (c.type = svn_diff__type_e.svn_diff__type_common))
            = a.map (fun r => ⟨svn_diff__type_e.svn_diff__type_common,
                r.position0_offset - 1, r.length, r.position1_offset - 1, r.length, 0, 0⟩)) := by
  obtain ⟨out, hout⟩ := diff_isSome_of_exists_zero true (pre ++ t :: rest) o m
    ⟨t, by simp, ht⟩
  obtain ⟨h1, h2, h3⟩ := counts_from pre o m hpre t rest out ht hout
  refine ⟨out, hout, h1, by rw [h1, List.length_map], h2, h3, ?_⟩
  intro a b r1 r2 hsplit hc0 hc1
  subst hsplit
  have ha : ∀ p ∈ a, p.length ≠ 0 := fun q hq => hpre q (by simp [hq])
  have hr1 : r1.length ≠ 0 := hpre r1 (by simp)
  have hr2 : r2.length ≠ 0 := hpre r2 (by simp)
  obtain ⟨outA, hA1, hA2⟩ := diff_append true (r1 :: r2 :: (b ++ t :: rest)) a o m ha
  have hfirst := hA1 (cursors_after a o m).1 (cursors_after a o m).2
  have hnogap : gap_chunks ⟨(cursors_after a o m).1, (cursors_after a o m).2, 0⟩
      (cursors_after a o m).1 (cursors_after a o m).2 = [] := by
    simp [gap_chunks]
  rw [hnogap, List.append_nil] at hfirst
  have hAcommon := (counts_from a o m ha
    ⟨(cursors_after a o m).1, (cursors_after a o m).2, 0⟩ [] outA rfl hfirst).1
  have hchain : (a ++ r1 :: r2 :: b) ++ t :: rest = a ++ r1 :: r2 :: (b ++ t :: rest) := by
    simp
  rw [hchain, hA2, diff_cons_ne r1 _ _ _ true hr1, diff_cons_ne r2 _ _ _ true hr2] at hout
  have hg2 : gap_chunks r2 (r1.position0_offset + r1.length)
      (r1.position1_offset + r1.length) = [] := by
    simp [gap_chunks, hc0, hc1]
  rw [hg2] at hout
  cases hrec : svn_diff__diff (b ++ t :: rest) (r2.position0_offset + r2.length)
      (r2.position1_offset + r2.length) true with
  | none => rw [hrec] at hout; cases hout
  | some out2 =>
    rw [hrec] at hout
    simp only [Option.map_some', Option.some.injEq, common_chunks, if_true,
      List.nil_append, List.singleton_append] at hout
    refine ⟨outA ++ gap_chunks r1 (cursors_after a o m).1 (cursors_after a o m).2, out2, ?_, ?_⟩
    · rw [← hout]
      simp [common_chunk]
    · rw [List.filter_append, (gap_chunks_counts r1 _ _).1, List.append_nil]
      exact hAcommon

/-- Witness of C21: the three tokens of original `A B C` against itself, given
as the two contiguous runs `(1, 1, 1)` and `(2, 2, 2)`. -/
theorem svn_diff__diff_one_common_per_run_witness :
    ∃ out, svn_diff__diff ([⟨1, 1, 1⟩, ⟨2, 2, 2⟩] ++ ⟨4, 4, 0⟩ :: []) 1 1 true = some out ∧
      out.filter (fun c => decide (c.type = svn_diff__type_e.svn_diff__type_common))
        = ([⟨1, 1, 1⟩, ⟨2, 2, 2⟩] : List svn_diff__lcs_t).map
            (fun r => ⟨svn_diff__type_e.svn_diff__type_common,
              r.position0_offset - 1, r.length, r.position1_offset - 1, r.length, 0, 0⟩) ∧
      (out.filter
        (fun c => decide (c.type = svn_diff__type_e.svn_diff__type_common))).length
        = ([⟨1, 1, 1⟩, ⟨2, 2, 2⟩] : List svn_diff__lcs_t).length ∧
      (out.filter
        (fun c => decide (c.type = svn_diff__type_e.svn_diff__type_diff_modified))).length
        ≤ ([⟨1, 1, 1⟩, ⟨2, 2, 2⟩] : List svn_diff__lcs_t).length + 1 ∧
      out.length ≤ 2 * ([⟨1, 1, 1⟩, ⟨2, 2, 2⟩] : List svn_diff__lcs_t).length + 1 ∧
      (∀ (a b : List svn_diff__lcs_t) (r1 r2 : svn_diff__lcs_t),
        [⟨1, 1, 1⟩, ⟨2, 2, 2⟩] = a ++ r1 :: r2 :: b →
        r2.position0_offset = r1.position0_offset + r1.length →
        r2.position1_offset = r1.position1_offset + r1.length →
        ∃ out1 out2,
          out = out1 ++
            (⟨svn_diff__type_e.svn_diff__type_common,
                r1.position0_offset - 1, r1.length, r1.position1_offset - 1, r1.length, 0, 0⟩ ::
             ⟨svn_diff__type_e.svn_diff__type_common,
                r2.position0_offset - 1, r2.length, r2.position1_offset - 1, r2.length, 0, 0⟩ ::
             out2) ∧
          out1.filter (fun c => decide (c.type = svn_diff__type_e.svn_diff__type_common))
            = a.map (fun r => ⟨svn_diff__type_e.svn_diff__type_common,
                r.position0_offset - 1, r.length, r.position1_offset - 1, r.length, 0, 0⟩)) :=
  svn_diff__diff_one_common_per_run [⟨1, 1, 1⟩, ⟨2, 2, 2⟩] [] ⟨4, 4, 0⟩ 1 1 (by decide) rfl

/-- C22 (run order is not validated).  The chain of the runs `(1, 1, 2)` and
`(5, 2, 1)` with the terminator `(6, 3, 0)` has positive run lengths and ends
in its terminator, but is not monotone on the modified side (the second run
starts at `2`, before the end `3` of the first).  From the cursors `(1, 1)`,
for either value of `want_common`, `svn_diff__diff` returns a chain that
contains the chunk `modified(2, 2, 2, -1)`, of negative `modified_length`.
The cause is general: whenever the original cursor is below the offset of a
run while the modified cursor is past its offset, the gap test fires and the
first chunk is of type `modified` with a negative `modified_length`. -/
theorem svn_diff__diff_order_not_validated :
    (∀ r ∈ ([⟨1, 1, 2⟩, ⟨5, 2, 1⟩, ⟨6, 3, 0⟩] : List svn_diff__lcs_t).dropLast, 0 < r.length) ∧
    EndsInTerminator [⟨1, 1, 2⟩, ⟨5, 2, 1⟩, ⟨6, 3, 0⟩] ∧
    ¬ OrderedChain 5 2 [⟨1, 1, 2⟩, ⟨5, 2, 1⟩, ⟨6, 3, 0⟩] ∧
    svn_diff__diff [⟨1, 1, 2⟩, ⟨5, 2, 1⟩, ⟨6, 3, 0⟩] 1 1 true =
      some [⟨svn_diff__type_e.svn_diff__type_common, 0, 2, 0, 2, 0, 0⟩,
            ⟨svn_diff__type_e.svn_diff__type_diff_modified, 2, 2, 2, -1, 0, 0⟩,
            ⟨svn_diff__type_e.svn_diff__type_common, 4, 1, 1, 1, 0, 0⟩] ∧
    svn_diff__diff [⟨1, 1, 2⟩, ⟨5, 2, 1⟩, ⟨6, 3, 0⟩] 1 1 false =
      some [⟨svn_diff__type_e.svn_diff__type_diff_modified, 2, 2, 2, -1, 0, 0⟩] ∧
    (∀ (r : svn_diff__lcs_t) (rest : List svn_diff__lcs_t) (o m : Int) (want_common : Bool),
      EndsInTerminator (r :: rest) → o < r.position0_offset → r.position1_offset < m →
      ∃ c tail, svn_diff__diff (r :: rest) o m want_common = some (c :: tail) ∧
        c.type = svn_diff__type_e.svn_diff__type_diff_modified ∧ c.modified_length < 0) := by
  refine ⟨by decide, by decide, by decide, by decide, by decide, ?_⟩
  intro r rest o m want_common hterm ho hm
  obtain ⟨out, hout⟩ := diff_isSome_of_endsInTerminator want_common (r :: rest) o m hterm
  have hgap : gap_chunks r o m = [modified_chunk r o m] := by
    simp [gap_chunks, ho]
  by_cases hz : r.length = 0
  · rw [diff_cons_zero r rest o m want_common hz, hgap] at hout
    refine ⟨modified_chunk r o m, [], ?_, rfl, ?_⟩
    · rw [diff_cons_zero r rest o m want_common hz, hgap]
    · simp only [modified_chunk]
      omega
  · rw [diff_cons_ne r rest o m want_common hz] at hout
    cases hrec : svn_diff__diff rest (r.position0_offset + r.length)
        (r.position1_offset + r.length) want_common with
    | none => rw [hrec] at hout; cases hout
    | some out2 =>
      refine ⟨modified_chunk r o m, common_chunks r want_common ++ out2, ?_, rfl, ?_⟩
      · rw [diff_cons_ne r rest o m want_common hz, hrec, hgap]
        rfl
      · simp only [modified_chunk]
        omega

end SvnDiff
